import Mathlib

/-!
Verification of gccld and `sys::Program` (Unix)

Shallow embedding of

* `BuildLinkItems`, `EmitShellScript` and `main` of `llvm/tools/gccld/gccld.cpp`,
* `Program::FindProgramByName`, `RedirectFD` and `Program::ExecuteAndWait` of
  `llvm/lib/System/Unix/Program.cpp`,

followed by the theorems proved about them.
-/

namespace Gccld

/-! ## `BuildLinkItems` (gccld.cpp, lines 159-191) -/

/-- A `cl::list<std::string>` as `BuildLinkItems` reads it: the parsed values in
order, each paired with the command-line position that `getPosition` reports for
its index.  (`cl::list` itself is declared in `Support/CommandLine.h`.)  The
position is the value after the conversion to `int` done by the assignments
`libPos = ...` and `filePos = ...`. -/
abbrev ClList := List (String × Int)

/-- The type `Linker::ItemList`: a vector of `std::pair<std::string, bool>`, the flag
being "is a library". -/
abbrev ItemList := List (String × Bool)

/-- The call `Files.getPosition(optnum)`. -/
def getPosition (l : ClList) (optnum : Nat) : Int := (l.getD optnum ("", 0)).2

/-- The value `*it` for an iterator standing at index `idx`. -/
def deref (l : ClList) (idx : Nat) : String := (l.getD idx ("", 0)).1

/-- The variables of the loop of `BuildLinkItems`.  `fileIt` and `libIt` are the
iterators, kept as their distance from `begin()`; `Items` is the output vector.
`emitted` is a ghost variable (not in the C++): the declaration position of each
item pushed so far, in push order. -/
structure MergeState where
  fileIt : Nat
  libIt : Nat
  Items : ItemList
  emitted : List Int
deriving DecidableEq, Repr

/-- The loop condition `libIt != Libraries.end() || fileIt != Files.end()`. -/
def loopCond (Files Libraries : ClList) (s : MergeState) : Bool :=
  decide (s.libIt ≠ Libraries.length) || decide (s.fileIt ≠ Files.length)

/-- One execution of the loop body (lines 174-189). -/
def loopBody (Files Libraries : ClList) (s : MergeState) : MergeState :=
  let libPos : Int :=
    if s.libIt ≠ Libraries.length then getPosition Libraries s.libIt else -1
  let filePos : Int :=
    if s.fileIt ≠ Files.length then getPosition Files s.fileIt else -1
  if filePos ≠ -1 ∧ (libPos = -1 ∨ filePos < libPos) then
    -- Add a source file
    { s with Items := s.Items ++ [(deref Files s.fileIt, false)],
             fileIt := s.fileIt + 1,
             emitted := s.emitted ++ [filePos] }
  else if libPos ≠ -1 ∧ (filePos = -1 ∨ libPos < filePos) then
    -- Add a library
    { s with Items := s.Items ++ [(deref Libraries s.libIt, true)],
             libIt := s.libIt + 1,
             emitted := s.emitted ++ [libPos] }
  else s

/-- The `while` loop, run for at most `fuel` evaluations of its condition;
`none` when the fuel runs out before the condition becomes false. -/
def mergeLoop (Files Libraries : ClList) : Nat → MergeState → Option MergeState
  | 0, _ => none
  | fuel + 1, s =>
    if loopCond Files Libraries s then
      mergeLoop Files Libraries fuel (loopBody Files Libraries s)
    else some s

/-- The state in which the loop is entered: both iterators at `begin()`. -/
def mergeInit (Items : ItemList) : MergeState :=
  { fileIt := 0, libIt := 0, Items := Items, emitted := [] }

/-- The call `BuildLinkItems(Items, Files, Libraries)`: the contents of `Items` on
return. -/
def BuildLinkItems (fuel : Nat) (Items : ItemList) (Files Libraries : ClList) :
    Option ItemList :=
  (mergeLoop Files Libraries fuel (mergeInit Items)).map MergeState.Items

/-- The declaration positions of the items pushed by `BuildLinkItems`, in push
order (the ghost trace of the same run). -/
def BuildLinkItemsPositions (fuel : Nat) (Files Libraries : ClList) : Option (List Int) :=
  (mergeLoop Files Libraries fuel (mergeInit [])).map MergeState.emitted

/-- Proof device: what the loop pushes from two remaining suffixes when their
positions never tie, each item with its flag and its declaration position. -/
def interleave : ClList → ClList → List (String × Bool × Int)
  | [], ls => ls.map fun l => (l.1, true, l.2)
  | f :: fs, [] => (f :: fs).map fun x => (x.1, false, x.2)
  | f :: fs, l :: ls =>
    if f.2 < l.2 then (f.1, false, f.2) :: interleave fs (l :: ls)
    else (l.1, true, l.2) :: interleave (f :: fs) ls
termination_by fs ls => fs.length + ls.length

/-- The `(name, is-library)` pair of a tagged item. -/
def toItem (t : String × Bool × Int) : String × Bool := (t.1, t.2.1)

/-- The declaration position of a tagged item. -/
def toPos (t : String × Bool × Int) : Int := t.2.2

end Gccld

namespace Program

/-! ## `Program::FindProgramByName` (Unix/Program.cpp, lines 34-79) -/

/-- A `sys::Path`, identified with the string it holds.  The default-constructed
`Path()` is the empty string, which is what `Path::isEmpty` tests. -/
abbrev Path := String

/-- The value `Path()` returned when no program is found. -/
def notFound : Path := ""

/-- The operations of `sys::Path` that `FindProgramByName` calls.  The class is
implemented in `lib/System/Unix/Path.cpp`, which is not among the sources, so the
operations are parameters of the embedding.  `setFile` and `setDirectory` are
called on a fresh `Path`: the result is the new path, or `none` when the call
returns `false`.  `appendFile` gives the path after the call (its result is not
tested by the caller). -/
structure PathOps where
  setFile : String → Option Path
  setDirectory : String → Option Path
  appendFile : Path → String → Path
  executable : Path → Bool

/-- Modelled from the spec: the `sys::Path` operations of `lib/System/Unix/Path.cpp`
(not among the sources).  A name is accepted by `setFile` when it is a valid file
name (`validName`), the path then being the name itself; `setDirectory` refuses the
empty string, and `setDirectory(dir)` followed by `appendFile(name)` gives
`dir/name` ("test whether `directory/name` exists and is executable");
`executable` is the file-system predicate. -/
def specPathOps (validName executable : String → Bool) : PathOps where
  setFile name := if validName name then some name else none
  setDirectory dir := if dir = "" then none else some (dir ++ "/")
  appendFile p name := p ++ name
  executable := executable

/-- The number of values of the C type `unsigned` (32 bits). -/
def UINT_SIZE : Nat := 4294967296

/-- The terminator of a C string. -/
def NUL : Char := Char.ofNat 0

/-- The character `buf[i]` of the NUL-terminated string whose characters are
`buf`: the terminator at index `buf.length`. -/
def charAt (buf : List Char) (i : Nat) : Char := buf.getD i NUL

/-- The call `std::find(first, first + count, value)` over the buffer, by offsets. -/
def findFrom (buf : List Char) (value : Char) : Nat → Nat → Nat
  | first, 0 => first
  | first, count + 1 =>
    if charAt buf first = value then first else findFrom buf value (first + 1) count

/-- The call `std::find(first, last, value)`. -/
def stdFind (buf : List Char) (first last : Nat) (value : Char) : Nat :=
  findFrom buf value first (last - first)

/-- The string `std::string(first, last)`: the characters in `[first, last)`. -/
def stringOfRange (buf : List Char) (first last : Nat) : String :=
  String.mk ((buf.drop first).take (last - first))

/-- The two variables of the scan: the pointer `PathStr`, kept as its offset into
the string returned by `getenv("PATH")`, and the `unsigned` counter `PathLen`. -/
structure ScanState where
  PathStr : Nat
  PathLen : Nat
deriving DecidableEq, Repr

/-- The inner loop `while (*PathStr == ':') { PathStr++; PathLen--; }`, reading
the characters from the pointer on; `PathLen--` is an `unsigned` decrement. -/
def skipColonsFrom : List Char → ScanState → ScanState
  | [], s => s
  | c :: rest, s =>
    if c = ':' then
      skipColonsFrom rest
        { PathStr := s.PathStr + 1, PathLen := (s.PathLen + UINT_SIZE - 1) % UINT_SIZE }
    else s

/-- The inner loop started at the pointer of `s`. -/
def skipColons (buf : List Char) (s : ScanState) : ScanState :=
  skipColonsFrom (buf.drop s.PathStr) s

/-- Lines 61-66: try one directory; `some p` when the executable `p` is found in
it. -/
def tryDirectory (ops : PathOps) (progName : String) (dir : String) : Option Path :=
  match ops.setDirectory dir with
  | some FilePath =>
    if ops.executable (ops.appendFile FilePath progName) then
      some (ops.appendFile FilePath progName)
    else none
  | none => none

/-- Lines 68-76: go to the next path in the list. -/
def advance (buf : List Char) (s : ScanState) (Colon : Nat) : ScanState :=
  skipColons buf
    { PathLen := (s.PathLen + UINT_SIZE - (Colon - s.PathStr) % UINT_SIZE) % UINT_SIZE,
      PathStr := Colon }

/-- The loop `while (PathLen)` of lines 56-77 followed by `return Path()`, run
for at most `fuel` evaluations of its condition; `none` when the fuel runs out. -/
def scanLoop (ops : PathOps) (progName : String) (buf : List Char) :
    Nat → ScanState → Option Path
  | 0, _ => none
  | fuel + 1, s =>
    if s.PathLen ≠ 0 then
      let Colon := stdFind buf s.PathStr (s.PathStr + s.PathLen) ':'
      match tryDirectory ops progName (stringOfRange buf s.PathStr Colon) with
      | some FilePath => some FilePath
      | none => scanLoop ops progName buf fuel (advance buf s Colon)
    else some notFound

/-- The function `Program::FindProgramByName(progName)`.  `getenvPATH` is the result of
`getenv("PATH")`: `none` for the null pointer, else the value, a string without
NUL.  The result is `none` when the scan has not ended within `fuel` iterations. -/
def FindProgramByName (ops : PathOps) (getenvPATH : Option String) (fuel : Nat)
    (progName : String) : Option Path :=
  if progName.length = 0 then some notFound
  else
    match ops.setFile progName with
    | none => some notFound
    | some temp =>
      if ops.executable temp then some temp
      else
        match getenvPATH with
        | none => some notFound
        | some PathStr =>
          scanLoop ops progName PathStr.toList fuel
            { PathStr := 0, PathLen := PathStr.length % UINT_SIZE }

/-- The directories of a search path: its non-empty colon-separated segments, in
order. -/
def pathDirectories (PATH : String) : List String :=
  ((PATH.toList.splitOn ':').filter (fun seg => !seg.isEmpty)).map String.mk

/-- The reference resolver, written from the words of the specification. -/
def referenceResolver (validName executable : String → Bool) (PATH : Option String)
    (name : String) : Path :=
  if name = "" ∨ validName name = false then notFound
  else if executable name then name
  else
    match PATH with
    | none => notFound
    | some path =>
      match (pathDirectories path).find? (fun dir => executable (dir ++ "/" ++ name)) with
      | some dir => dir ++ "/" ++ name
      | none => notFound

/-- Proof device: the colon test of the scan, as a Boolean predicate. -/
def isColon (c : Char) : Bool := decide (c = ':')

/-- Proof device: the first segment of a suffix, up to its first colon. -/
def headSegment (r : List Char) : List Char := r.takeWhile (fun c => !isColon c)

/-- Proof device: what remains of a suffix after its first segment and the colons
that follow it. -/
def afterSegment (r : List Char) : List Char :=
  (r.dropWhile (fun c => !isColon c)).dropWhile isColon

/-- Proof device: the non-empty colon-separated segments of a suffix. -/
def segmentsOf (r : List Char) : List (List Char) :=
  (r.splitOn ':').filter (fun seg => !seg.isEmpty)

/-- Proof device: the answer of the reference resolver over a list of directories. -/
def resolveIn (executable : String → Bool) (name : String) (dirs : List String) : Path :=
  match dirs.find? (fun dir => executable (dir ++ "/" ++ name)) with
  | some dir => dir ++ "/" ++ name
  | none => notFound

/-- The states in which the condition of the loop `while (PathLen)` is evaluated,
in order, for at most `fuel` evaluations (a ghost trace of `scanLoop`, which it
follows step by step): the state at the start of each iteration and, when the loop
is left through its condition, the state in which the condition fails. -/
def scanStates (ops : PathOps) (progName : String) (buf : List Char) :
    Nat → ScanState → List ScanState
  | 0, _ => []
  | fuel + 1, s =>
    if s.PathLen ≠ 0 then
      let Colon := stdFind buf s.PathStr (s.PathStr + s.PathLen) ':'
      match tryDirectory ops progName (stringOfRange buf s.PathStr Colon) with
      | some _ => [s]
      | none => s :: scanStates ops progName buf fuel (advance buf s Colon)
    else [s]

/-- The state in which the scan is entered: the pointer at the start of the value
of `PATH`, the counter equal to `strlen(PathStr)` converted to `unsigned`. -/
def scanInit (PathStr : String) : ScanState :=
  { PathStr := 0, PathLen := PathStr.length % UINT_SIZE }

/-! ## `RedirectFD` and the child of `Program::ExecuteAndWait` (lines 81-93, 121-155) -/

/-- The `open(2)` flags that matter here (`<fcntl.h>`), kept symbolic. -/
inductive OFlag where
  | O_RDONLY
  | O_WRONLY
  | O_CREAT
  | O_TRUNC
deriving DecidableEq, Repr

/-- What a file descriptor of the child refers to: a descriptor inherited from the
parent (named by its number there), or a file opened by the child, with the
flags and the permission bits of the `open` call. -/
inductive Desc where
  | inherited (fd : Nat)
  | file (path : String) (flags : List OFlag) (mode : Nat)
deriving DecidableEq, Repr

/-- The descriptor table of a process: entry `fd` is `none` when `fd` is closed. -/
abbrev FdTable := List (Option Desc)

/-- The system calls of the redirection code, with their arguments; `sysOpen`
also records the value returned. -/
inductive Syscall where
  | sysOpen (path : String) (flags : List OFlag) (mode : Nat) (ret : Int)
  | sysDup2 (oldfd newfd : Nat)
  | sysClose (fd : Nat)
deriving DecidableEq, Repr

/-- The child process as far as redirection goes: its descriptor table and the
system calls it has made so far. -/
structure ChildState where
  fds : FdTable
  trace : List Syscall
deriving DecidableEq, Repr

/-- Entry `fd` of a descriptor table. -/
def getFd (t : FdTable) (fd : Nat) : Option Desc := t.getD fd none

/-- The table with entry `fd` replaced. -/
def setFd (t : FdTable) (fd : Nat) (d : Option Desc) : FdTable :=
  if fd < t.length then t.set fd d else t ++ List.replicate (fd - t.length) none ++ [d]

/-- The lowest descriptor that is not open, which is what `open` returns. -/
def lowestFree : FdTable → Nat
  | [] => 0
  | none :: _ => 0
  | some _ :: t => lowestFree t + 1

/-- The call `open(path, flags, mode)`: fails (returns `-1`) when the file system refuses
(`canOpen`), otherwise binds the lowest free descriptor to the file and returns
it. -/
def doOpen (canOpen : String → List OFlag → Bool) (path : String) (flags : List OFlag)
    (mode : Nat) (s : ChildState) : Option Nat × ChildState :=
  if canOpen path flags then
    (some (lowestFree s.fds),
      { fds := setFd s.fds (lowestFree s.fds) (some (Desc.file path flags mode)),
        trace := s.trace ++ [Syscall.sysOpen path flags mode (lowestFree s.fds)] })
  else (none, { s with trace := s.trace ++ [Syscall.sysOpen path flags mode (-1)] })

/-- The call `dup2(oldfd, newfd)`: nothing happens when `oldfd` is not open or equals
`newfd`; otherwise `newfd` becomes a duplicate of `oldfd`. -/
def doDup2 (oldfd newfd : Nat) (s : ChildState) : ChildState :=
  { fds := if (getFd s.fds oldfd).isSome ∧ oldfd ≠ newfd then
             setFd s.fds newfd (getFd s.fds oldfd)
           else s.fds,
    trace := s.trace ++ [Syscall.sysDup2 oldfd newfd] }

/-- The call `close(fd)`. -/
def doClose (fd : Nat) (s : ChildState) : ChildState :=
  { fds := if (getFd s.fds fd).isSome then setFd s.fds fd none else s.fds,
    trace := s.trace ++ [Syscall.sysClose fd] }

/-- The permission bits `0666`. -/
def mode0666 : Nat := 0o666

/-- The flags `RedirectFD` passes to `open`: `FD == 0 ? O_RDONLY : O_WRONLY|O_CREAT`. -/
def redirectFlags (FD : Nat) : List OFlag :=
  if FD = 0 then [OFlag.O_RDONLY] else [OFlag.O_WRONLY, OFlag.O_CREAT]

/-- The function `RedirectFD(File, FD)`.  The result is `Except.error` when `ThrowErrno` is
called, with the message and the state of the child at the throw. -/
def RedirectFD (canOpen : String → List OFlag → Bool) (File : String) (FD : Nat)
    (s : ChildState) : Except (String × ChildState) ChildState :=
  if File.isEmpty then Except.ok s  -- Noop
  else
    -- Open the file
    match doOpen canOpen File (redirectFlags FD) mode0666 s with
    | (none, s1) =>
      Except.error
        ("Cannot open file '" ++ File ++ "' for " ++ (if FD = 0 then "input" else "output")
          ++ "!\n", s1)
    | (some InFD, s1) =>
      Except.ok (doClose InFD (doDup2 InFD FD s1))

/-- The array `redirects` of `ExecuteAndWait`: the three pointers `redirects[0]`
(stdin), `redirects[1]` (stdout) and `redirects[2]` (stderr), `none` for a null
pointer. -/
structure Redirects where
  stdin : Option Path
  stdout : Option Path
  stderr : Option Path
deriving DecidableEq, Repr

/-- The redirection code run by the child (lines 123-143); `redirects` is `none`
for a null array. -/
def childRedirects (canOpen : String → List OFlag → Bool) (redirects : Option Redirects)
    (s : ChildState) : Except (String × ChildState) ChildState :=
  match redirects with
  | none => Except.ok s
  | some r => do
    let s0 ←
      match r.stdin with
      | some p0 =>
        if p0.isEmpty then RedirectFD canOpen "/dev/null" 0 s
        else RedirectFD canOpen p0 0 s
      | none => Except.ok s
    let s1 ←
      match r.stdout with
      | some p1 =>
        if p1.isEmpty then RedirectFD canOpen "/dev/null" 1 s0
        else RedirectFD canOpen p1 1 s0
      | none => Except.ok s0
    match r.stdout, r.stderr with
    | some p1, some p2 =>
      if p1 ≠ p2 then
        if p2.isEmpty then RedirectFD canOpen "/dev/null" 2 s1
        else RedirectFD canOpen p2 2 s1
      else Except.ok (doDup2 1 2 s1)
    | _, _ => Except.ok (doDup2 1 2 s1)

/-- The state of the child when the redirection code is left, by falling through
to `execve` or by a throw. -/
def finalState (res : Except (String × ChildState) ChildState) : ChildState :=
  match res with
  | Except.ok s => s
  | Except.error e => e.2

/-- The file a redirect target stands for: the discard device for the empty path. -/
def targetOf (p : Path) : String := if p.isEmpty then "/dev/null" else p

/-- The descriptors 0, 1 and 2 are open. -/
def stdOpen (t : FdTable) : Prop :=
  (getFd t 0).isSome = true ∧ (getFd t 1).isSome = true ∧ (getFd t 2).isSome = true

instance (t : FdTable) : Decidable (stdOpen t) := by
  unfold stdOpen
  infer_instance

/-- The table of a child that inherits the three standard streams. -/
def stdFds : FdTable := [some (Desc.inherited 0), some (Desc.inherited 1), some (Desc.inherited 2)]

deriving instance DecidableEq for Except

/-- A trace in which no `open` is given the empty path. -/
def noEmptyOpen (tr : List Syscall) : Prop :=
  ∀ e ∈ tr, ∀ path flags mode ret, e = Syscall.sysOpen path flags mode ret → path ≠ ""

/-- Proof device: the redirection of one stream, `redirects[FD]` being `o`. -/
def redirectStream (canOpen : String → List OFlag → Bool) (o : Option Path) (FD : Nat)
    (s : ChildState) : Except (String × ChildState) ChildState :=
  match o with
  | some p => RedirectFD canOpen (targetOf p) FD s
  | none => Except.ok s

/-- The test of line 134-135: both pointers set and the two paths different. -/
def separateStderr (r : Redirects) : Bool :=
  match r.stdout, r.stderr with
  | some p1, some p2 => decide (p1 ≠ p2)
  | _, _ => false

/-- The system calls of one successful stream redirection: `open` returning `n`,
`dup2(n, FD)`, `close(n)`; none for a null pointer. -/
def streamCalls (o : Option Path) (FD n : Nat) : List Syscall :=
  match o with
  | some p =>
    [Syscall.sysOpen (targetOf p) (redirectFlags FD) mode0666 n, Syscall.sysDup2 n FD,
      Syscall.sysClose n]
  | none => []

/-- The file a stream is bound to after its redirection: the target, opened with
the flags of `RedirectFD`; what it was before, for a null pointer. -/
def boundTo (o : Option Path) (FD : Nat) (before : Option Desc) : Option Desc :=
  match o with
  | some p => some (Desc.file (targetOf p) (redirectFlags FD) mode0666)
  | none => before

/-! ## The parent of `Program::ExecuteAndWait` (lines 107-119, 162-219) -/

/-- The `status` that `wait` stores for a terminated child: `WIFEXITED` with its
`WEXITSTATUS`, `WIFSIGNALED` with its signal, or neither. -/
inductive Status where
  | exited (code : Nat)
  | signaled (sig : Nat)
  | neither
deriving DecidableEq, Repr

/-- The values of `errno` that the code distinguishes. -/
inductive Errno where
  | EINTR
  | other (code : Nat)
deriving DecidableEq, Repr

/-- One return of `wait(&status)`: the pid of a terminated child, with its status;
`-1` with `errno == EINTR` because a signal arrived (`bySIGALRM` tells whether it
was the alarm signal); or `-1` with another `errno`. -/
inductive WaitResult where
  | reaped (pid : Int) (status : Status)
  | interrupted (bySIGALRM : Bool)
  | failed (code : Nat)
deriving DecidableEq, Repr

/-- What the parent does that can be observed from outside. -/
inductive ParentEvent where
  | installHandler
  | alarm (seconds : Nat)
  | restoreHandler
  | wait
  | kill (pid : Int)
deriving DecidableEq, Repr

/-- How a call of `ExecuteAndWait` ends: `return`, a call of `ThrowErrno`, or
`throw` of a `std::string`. -/
inductive ExecResult where
  | returned (value : Int)
  | threwErrno (msg : String)
  | threwString (msg : String)
deriving DecidableEq, Repr

/-- The variables of the parent: the static flag `Timeout`, `errno`, the number of
`wait` calls made so far, and the events so far. -/
structure ParentState where
  Timeout : Bool
  errno : Errno
  waitCalls : Nat
  events : List ParentEvent
deriving DecidableEq, Repr

/-- What the parent is run against: whether `path.executable()` holds, the value
of `fork()` in the parent (`-1` on failure), the values of `Timeout` and `errno`
on entry, and the successive results of `wait`. -/
structure ExecEnv where
  executable : Bool
  forkResult : Int
  Timeout0 : Bool
  errno0 : Errno
  waits : Nat → WaitResult

/-- The signal handler `TimeOutHandler` (lines 95-98): it sets the flag `Timeout`
and does nothing else. -/
def TimeOutHandler (st : ParentState) : ParentState := { st with Timeout := true }

/-- One call `wait(&status)`: the value returned, the status stored (kept when
nothing is stored), and the new state.  A failing call sets `errno`; an
interruption by `SIGALRM` runs `TimeOutHandler`, which sets `Timeout`, when the
handler is installed. -/
def doWait (env : ExecEnv) (handlerInstalled : Bool) (status : Status) (st : ParentState) :
    Int × Status × ParentState :=
  match env.waits st.waitCalls with
  | WaitResult.reaped pid status1 =>
    (pid, status1,
      { st with waitCalls := st.waitCalls + 1, events := st.events ++ [ParentEvent.wait] })
  | WaitResult.interrupted bySIGALRM =>
    (-1, status,
      { (if handlerInstalled && bySIGALRM then TimeOutHandler st else st) with
        errno := Errno.EINTR,
        waitCalls := st.waitCalls + 1, events := st.events ++ [ParentEvent.wait] })
  | WaitResult.failed code =>
    (-1, status,
      { st with errno := Errno.other code,
                waitCalls := st.waitCalls + 1, events := st.events ++ [ParentEvent.wait] })

/-- Lines 207-218: the classification of the child's status.  `Except.error` is
the `throw` of a `std::string`. -/
def exitStatus (pathName : String) (status : Status) : Except String Int :=
  match status with
  | Status.exited code => Except.ok code
  | Status.signaled _ =>
    Except.error ("Program '" ++ pathName ++ "' received terminating signal.")
  | Status.neither => Except.ok 0

/-- The parent side of `ExecuteAndWait(path, args, envp, redirects, secondsToWait)`,
`pathName` being `path.toString()`.  The body of the `while` loop of lines 183-199
ends in `return` or in a throw on both of its paths, so the loop condition is
evaluated once. -/
def ExecuteAndWait (pathName : String) (secondsToWait : Nat) (env : ExecEnv) :
    ExecResult × ParentState :=
  let st0 : ParentState :=
    { Timeout := env.Timeout0, errno := env.errno0, waitCalls := 0, events := [] }
  if !env.executable then
    (ExecResult.threwString (pathName ++ " is not executable"), st0)
  else if env.forkResult = -1 then
    (ExecResult.threwErrno ("Couldn't execute program '" ++ pathName ++ "'"), st0)
  else
    let child := env.forkResult
    -- Install a timeout handler.
    let st1 : ParentState :=
      if secondsToWait ≠ 0 then
        { st0 with Timeout := false,
                   events := st0.events ++
                     [ParentEvent.installHandler, ParentEvent.alarm secondsToWait] }
      else st0
    -- Parent process: Wait for the child process to terminate.
    match doWait env (decide (secondsToWait ≠ 0)) Status.neither st1 with
    | (ret, status, st2) =>
      if ret ≠ child then
        if secondsToWait ≠ 0 ∧ st2.errno = Errno.EINTR then
          -- Kill the child, turn off the alarm and restore the signal handler
          let st3 : ParentState :=
            { st2 with events := st2.events ++
                [ParentEvent.kill child, ParentEvent.alarm 0, ParentEvent.restoreHandler] }
          -- Wait for child to die
          match doWait env false status st3 with
          | (ret2, _, st4) =>
            if ret2 ≠ child then
              (ExecResult.threwErrno "Child timedout but wouldn't die", st4)
            else (ExecResult.returned (-1), st4)  -- Timeout detected
        else (ExecResult.threwErrno "Error waiting for child process", st2)
      else
        -- We exited normally without timeout, so turn off the timer.
        let st5 : ParentState :=
          if secondsToWait ≠ 0 then
            { st2 with events := st2.events ++
                [ParentEvent.alarm 0, ParentEvent.restoreHandler] }
          else st2
        match exitStatus pathName status with
        | Except.ok value => (ExecResult.returned value, st5)
        | Except.error msg => (ExecResult.threwString msg, st5)

/-- The results of `wait` given by a list, the last one repeated for ever (and
`ECHILD`, 10, for the empty list). -/
def waitsOf (l : List WaitResult) (k : Nat) : WaitResult :=
  l.getD k (l.getLastD (WaitResult.failed 10))

end Program

namespace Gccld

/-! ## `main` (gccld.cpp, lines 193-353) -/

/-- The calls of `main` that act on the outside world, and its messages. -/
inductive MainEvent where
  | LinkInFiles
  | LinkInItems
  | GenerateBytecode
  | GenerateAssembly
  | GenerateCFile
  | GenerateNative
  | destroyFile
  | EmitShellScript
  | makeExecutable
  | print (msg : String)
deriving DecidableEq, Repr

/-- How a statement of the `try` block is left: by falling through to the next
statement, by `return`, or by an exception of one of the three kinds that the
`catch` clauses tell apart. -/
inductive Control where
  | fellThrough
  | returned (code : Int)
  | threwCStr (msg : String)
  | threwString (msg : String)
  | threwOther
deriving DecidableEq, Repr

/-- What a run of `main` depends on: the options `-link-as-library`, `-native`
and `-native-cbe`; whether the linker reports an error; whether the bytecode file
can be opened and generated; what `FindExecutable` returns for `llc` and `gcc` (the
empty path when not found); and how the two tools end when they are run.
`OutputFilename` is the value of `-o`. -/
structure MainEnv where
  OutputFilename : String
  LinkAsLibrary : Bool
  Native : Bool
  NativeCBE : Bool
  linkError : Bool
  outGood : Bool
  bytecodeError : Bool
  llc : Program.Path
  gcc : Program.Path
  llcStatus : Program.Status
  gccStatus : Program.Status

/-- The function `PrintAndReturn(progname, Message)`: prints the message and returns 1. -/
def PrintAndReturn (Message : String) : List MainEvent × Int :=
  ([MainEvent.print Message], 1)

/-- Modelled from the spec: `GenerateAssembly`, `GenerateCFile` and
`GenerateNative` of `tools/gccld/GenerateCode.cpp` (not among the sources), which
"invoke the backend compiler tool via" the launcher: the call runs the tool to
completion through `ExecuteAndWait` and finishes as `ExecuteAndWait` does, by
returning the exit code or by the `std::string` exception for a signaled child. -/
def runStage (tool : Program.Path) (status : Program.Status) : Except String Int :=
  Program.exitStatus tool status

/-- Sequencing of two statements: the second runs when the first falls through. -/
def andThen (a : List MainEvent × Control) (b : List MainEvent × Control) :
    List MainEvent × Control :=
  match a.2 with
  | Control.fellThrough => (a.1 ++ b.1, b.2)
  | _ => a

/-- A call whose value `main` does not look at: only an exception leaves the
sequence. -/
def callIgnoringResult (ev : MainEvent) (r : Except String Int) : List MainEvent × Control :=
  match r with
  | Except.ok _ => ([ev], Control.fellThrough)
  | Except.error msg => ([ev], Control.threwString msg)

/-- Lines 210-233: link the files, or the items built by `BuildLinkItems`. -/
def linkStep (env : MainEnv) : List MainEvent × Control :=
  if env.LinkAsLibrary then
    if env.linkError then ([MainEvent.LinkInFiles], Control.returned 1)
    else ([MainEvent.LinkInFiles], Control.fellThrough)
  else
    if env.linkError then ([MainEvent.LinkInItems], Control.returned 1)
    else ([MainEvent.LinkInItems], Control.fellThrough)

/-- Line 239-240: the name of the bytecode file. -/
def RealBytecodeOutput (env : MainEnv) : String :=
  if !env.LinkAsLibrary then env.OutputFilename ++ ".bc" else env.OutputFilename

/-- Lines 238-267: create the output file and generate the bytecode. -/
def bytecodeStep (env : MainEnv) : List MainEvent × Control :=
  if !env.outGood then
    ((PrintAndReturn ("error opening '" ++ RealBytecodeOutput env ++ "' for writing!")).1,
      Control.returned
        (PrintAndReturn ("error opening '" ++ RealBytecodeOutput env ++ "' for writing!")).2)
  else if env.bytecodeError then
    (MainEvent.GenerateBytecode :: (PrintAndReturn "error generating bytecode").1,
      Control.returned (PrintAndReturn "error generating bytecode").2)
  else ([MainEvent.GenerateBytecode], Control.fellThrough)

/-- Lines 276-302 (`-native`) and 303-328 (`-native-cbe`), which differ in the
first stage only (`firstStage` is `GenerateAssembly` or `GenerateCFile`): find the
tools, run the two stages, remove the intermediate file. -/
def nativeStep (env : MainEnv) (firstStage : MainEvent) : List MainEvent × Control :=
  -- Determine the locations of the llc and gcc programs.
  if env.llc.isEmpty then
    ((PrintAndReturn "Failed to find llc").1, Control.returned (PrintAndReturn "Failed to find llc").2)
  else if env.gcc.isEmpty then
    ((PrintAndReturn "Failed to find gcc").1, Control.returned (PrintAndReturn "Failed to find gcc").2)
  else
    andThen (callIgnoringResult firstStage (runStage env.llc env.llcStatus))
      (andThen (callIgnoringResult MainEvent.GenerateNative (runStage env.gcc env.gccStatus))
        ([MainEvent.destroyFile], Control.fellThrough))

/-- Lines 271-339: what is done when not linking a library. -/
def executableStep (env : MainEnv) : List MainEvent × Control :=
  if !env.LinkAsLibrary then
    andThen
      (if env.Native then nativeStep env MainEvent.GenerateAssembly
       else if env.NativeCBE then nativeStep env MainEvent.GenerateCFile
       else ([MainEvent.EmitShellScript], Control.fellThrough))
      -- Make the script executable, and the bytecode file as well
      ([MainEvent.makeExecutable], Control.fellThrough)
  else ([], Control.fellThrough)

/-- The `try` block of `main`. -/
def tryBlock (env : MainEnv) : List MainEvent × Control :=
  andThen (linkStep env) (andThen (bytecodeStep env) (executableStep env))

/-- The function `main`: the events of the run and the exit code.  `exitCode` is 0 unless a
`catch` clause sets it. -/
def main (env : MainEnv) : List MainEvent × Int :=
  match tryBlock env with
  | (ev, Control.fellThrough) => (ev, 0)
  | (ev, Control.returned code) => (ev, code)
  | (ev, Control.threwCStr msg) => (ev ++ [MainEvent.print msg], 1)
  | (ev, Control.threwString msg) => (ev ++ [MainEvent.print msg], 2)
  | (ev, Control.threwOther) =>
    (ev ++ [MainEvent.print "An unexpected unknown exception occurred."], 3)

/-- The events of the tool stages and of the finalisation that follows them. -/
def isStageEvent (e : MainEvent) : Bool :=
  match e with
  | MainEvent.GenerateAssembly => true
  | MainEvent.GenerateCFile => true
  | MainEvent.GenerateNative => true
  | MainEvent.destroyFile => true
  | MainEvent.makeExecutable => true
  | _ => false

/-! ## `EmitShellScript` (gccld.cpp, lines 115-157) -/

/-- The library resolution that `EmitShellScript` consults: `sys::Path::FindLibrary`
(the empty path when the library is not found) and `Path::isDynamicLibrary`.  Both
belong to `lib/System/Unix/Path.cpp`, which is not among the sources, so they are
parameters of the embedding. -/
structure LibraryOracle where
  FindLibrary : String → Program.Path
  isDynamicLibrary : Program.Path → Bool

/-- How `EmitShellScript` ends (on a Unix system): by `exit(code)` after a message,
or by returning, with the lines written to the output file, in order, and the
contents of the global `Libraries` after the call. -/
inductive ScriptResult where
  | exited (code : Int) (msg : String)
  | written (lines : List String) (Libraries : List String)
deriving DecidableEq, Repr

/-- The three lines written first (lines 137-140). -/
def scriptHeader : List String :=
  ["#!/bin/sh\n", "lli=$\x7bLLVMINTERP-lli\x7d\n", "exec $lli \\\n"]

/-- The line written last (line 155). -/
def scriptFooter : String := "    $0.bc $\x7b1+\"$@\"\x7d\n"

/-- The loop of lines 149-154 over the libraries from the iterator on: the lines
it writes. -/
def loadLines (o : LibraryOracle) : List String → List String
  | [] => []
  | i :: rest =>
    let FullLibraryPath := o.FindLibrary i
    if !FullLibraryPath.isEmpty && o.isDynamicLibrary FullLibraryPath then
      ("    -load=" ++ FullLibraryPath ++ " \\\n") :: loadLines o rest
    else loadLines o rest

/-- The function `EmitShellScript(argv)`.  `outGood` is `Out2.good()` after the output
file has been opened, `Libraries` the global list of `-l` options.  The call of
`std::find` followed by `erase` removes the first element equal to `"c"`. -/
def EmitShellScript (o : LibraryOracle) (outGood : Bool) (OutputFilename : String)
    (Libraries : List String) : ScriptResult :=
  if !outGood then
    ScriptResult.exited (PrintAndReturn ("error opening '" ++ OutputFilename ++
      "' for writing!")).2 ("error opening '" ++ OutputFilename ++ "' for writing!")
  else
    -- We don't need to link in libc!
    let Libraries1 := Libraries.erase "c"
    ScriptResult.written (scriptHeader ++ loadLines o Libraries1 ++ [scriptFooter]) Libraries1

/-- The preload line of a declared library: `-load=` and the resolved path, when
the library resolves to a dynamic library. -/
def preloadLine (o : LibraryOracle) (lib : String) : Option String :=
  if !(o.FindLibrary lib).isEmpty && o.isDynamicLibrary (o.FindLibrary lib) then
    some ("    -load=" ++ o.FindLibrary lib ++ " \\\n")
  else none

end Gccld

/-! # Theorems -/

namespace Gccld

theorem drop_cons_facts {l : ClList} {i : Nat} {x : String × Int} {xs : ClList}
    (h : l.drop i = x :: xs) :
    i < l.length ∧ getPosition l i = x.2 ∧ deref l i = x.1 ∧ l.drop (i + 1) = xs := by
  have hi : i < l.length := by
    by_contra hc
    rw [List.drop_eq_nil_of_le (Nat.le_of_not_lt hc)] at h
    exact List.noConfusion h
  have h2 := List.drop_eq_getElem_cons hi
  rw [h2] at h
  injection h with h3 h4
  refine ⟨hi, ?_, ?_, h4⟩
  · simp [getPosition, List.getD_eq_getElem?_getD, List.getElem?_eq_getElem hi, h3]
  · simp [deref, List.getD_eq_getElem?_getD, List.getElem?_eq_getElem hi, h3]

theorem drop_nil_facts {l : ClList} {i : Nat} (hi : i ≤ l.length) (h : l.drop i = []) :
    i = l.length := by
  have := congrArg List.length h
  simp at this
  omega

theorem interleave_nil_right (fs : ClList) :
    interleave fs [] = fs.map fun x => (x.1, false, x.2) := by
  cases fs <;> simp [interleave]

/-- The loop body when the file cursor wins: a file is pushed. -/
theorem loopBody_file {F L : ClList} {s : MergeState} {f : String × Int} {fs : ClList}
    (hf : F.drop s.fileIt = f :: fs) (hne : f.2 ≠ -1)
    (hl : s.libIt = L.length ∨ f.2 < getPosition L s.libIt) :
    loopBody F L s =
      { fileIt := s.fileIt + 1, libIt := s.libIt,
        Items := s.Items ++ [(f.1, false)], emitted := s.emitted ++ [f.2] } := by
  obtain ⟨hi, hp, hd, _⟩ := drop_cons_facts hf
  have hi2 : s.fileIt ≠ F.length := Nat.ne_of_lt hi
  unfold loopBody
  simp only [hi2, ne_eq, not_false_eq_true, if_true, hp, hd]
  rcases hl with hl | hl
  · simp [hl, hne]
  · by_cases hj : s.libIt = L.length
    · simp [hj, hne]
    · simp [hj, hne, hl]

/-- The loop body when the library cursor wins: a library is pushed. -/
theorem loopBody_lib {F L : ClList} {s : MergeState} {l : String × Int} {ls : ClList}
    (hl : L.drop s.libIt = l :: ls) (hne : l.2 ≠ -1)
    (hf : s.fileIt = F.length ∨ (getPosition F s.fileIt ≠ -1 ∧ l.2 < getPosition F s.fileIt)) :
    loopBody F L s =
      { fileIt := s.fileIt, libIt := s.libIt + 1,
        Items := s.Items ++ [(l.1, true)], emitted := s.emitted ++ [l.2] } := by
  obtain ⟨hi, hp, hd, _⟩ := drop_cons_facts hl
  have hi2 : s.libIt ≠ L.length := Nat.ne_of_lt hi
  unfold loopBody
  simp only [hi2, ne_eq, not_false_eq_true, if_true, hp, hd]
  rcases hf with hf | ⟨hf1, hf2⟩
  · simp [hf, hne]
  · by_cases hj : s.fileIt = F.length
    · simp [hj, hne]
    · have h3 : ¬ (getPosition F s.fileIt < l.2) := not_lt.mpr (le_of_lt hf2)
      simp [hj, hne, hf1, hf2, h3]

/-- With no sentinel value and no tie among the positions, the loop run from any
reachable state ends, with both cursors at `end()`, after pushing the interleaving
of the two remaining suffixes. -/
theorem mergeLoop_eq (F L : ClList) (hF : ∀ x ∈ F, x.2 ≠ -1) (hL : ∀ x ∈ L, x.2 ≠ -1)
    (hd : ∀ x ∈ F, ∀ y ∈ L, x.2 ≠ y.2) :
    ∀ (n : Nat) (s : MergeState), s.fileIt ≤ F.length → s.libIt ≤ L.length →
      (F.length - s.fileIt) + (L.length - s.libIt) = n → ∀ fuel, n < fuel →
      mergeLoop F L fuel s = some
        { fileIt := F.length, libIt := L.length,
          Items := s.Items ++ (interleave (F.drop s.fileIt) (L.drop s.libIt)).map toItem,
          emitted := s.emitted ++ (interleave (F.drop s.fileIt) (L.drop s.libIt)).map toPos } := by
  intro n
  induction n with
  | zero =>
    intro s h1 h2 h3 fuel hfuel
    have e1 : s.fileIt = F.length := by omega
    have e2 : s.libIt = L.length := by omega
    obtain ⟨k, rfl⟩ : ∃ k, fuel = k + 1 := ⟨fuel - 1, by omega⟩
    cases s with
    | mk a b c d =>
      simp only at e1 e2
      subst e1 e2
      simp [mergeLoop, loopCond, interleave]
  | succ n ih =>
    intro s h1 h2 h3 fuel hfuel
    obtain ⟨k, rfl⟩ : ∃ k, fuel = k + 1 := ⟨fuel - 1, by omega⟩
    have hc : loopCond F L s = true := by
      simp only [loopCond, Bool.or_eq_true, decide_eq_true_eq]
      by_contra hcon
      push_neg at hcon
      omega
    rw [mergeLoop, if_pos hc]
    rcases hfd : F.drop s.fileIt with _ | ⟨f, fs⟩
    · -- files exhausted: a library is pushed
      have e1 := drop_nil_facts h1 hfd
      rcases hld : L.drop s.libIt with _ | ⟨l, ls⟩
      · have e2 := drop_nil_facts h2 hld
        omega
      · obtain ⟨hi, _, _, hrest⟩ := drop_cons_facts hld
        have hlmem : l ∈ L := List.mem_of_mem_drop (hld ▸ List.mem_cons_self l ls)
        rw [loopBody_lib hld (hL l hlmem) (Or.inl e1)]
        rw [ih _ (by simpa using h1) (by simpa using hi) (by simp only; omega) k (by omega)]
        simp [hfd, hrest, e1, interleave, toItem, toPos]
    · obtain ⟨hif, hpf, _, hrestf⟩ := drop_cons_facts hfd
      have hfmem : f ∈ F := List.mem_of_mem_drop (hfd ▸ List.mem_cons_self f fs)
      rcases hld : L.drop s.libIt with _ | ⟨l, ls⟩
      · -- libraries exhausted: a file is pushed
        have e2 := drop_nil_facts h2 hld
        rw [loopBody_file hfd (hF f hfmem) (Or.inl e2)]
        rw [ih _ (by simpa using hif) (by simpa using h2) (by simp only; omega) k (by omega)]
        simp [hld, hrestf, e2, interleave, interleave_nil_right, toItem, toPos]
      · obtain ⟨hil, hpl, _, hrestl⟩ := drop_cons_facts hld
        have hlmem : l ∈ L := List.mem_of_mem_drop (hld ▸ List.mem_cons_self l ls)
        by_cases hlt : f.2 < l.2
        · rw [loopBody_file hfd (hF f hfmem) (Or.inr (by rw [hpl]; exact hlt))]
          rw [ih _ (by simpa using hif) (by simpa using h2) (by simp only; omega) k (by omega)]
          simp [hld, hrestf, interleave, hlt, toItem, toPos]
        · have hgt : l.2 < f.2 := lt_of_le_of_ne (not_lt.mp hlt) (Ne.symm (hd f hfmem l hlmem))
          rw [loopBody_lib hld (hL l hlmem) (Or.inr (by rw [hpf]; exact ⟨hF f hfmem, hgt⟩))]
          rw [ih _ (by simpa using h1) (by simpa using hil) (by simp only; omega) k (by omega)]
          simp [hfd, hrestl, interleave, hlt, toItem, toPos]

theorem interleave_files (fs ls : ClList) :
    ((interleave fs ls).map toItem).filter (fun it => !it.2) = fs.map fun f => (f.1, false) := by
  induction fs, ls using interleave.induct with
  | case1 ls => simp [interleave, toItem, List.filter_eq_nil_iff]
  | case2 f fs =>
    simp [interleave, toItem, List.filter_map, Function.comp_def]
  | case3 f fs l ls h ih =>
    rw [interleave, if_pos h]
    simpa [toItem] using ih
  | case4 f fs l ls h ih =>
    rw [interleave, if_neg h]
    simpa [toItem] using ih

theorem interleave_libs (fs ls : ClList) :
    ((interleave fs ls).map toItem).filter (fun it => it.2) = ls.map fun l => (l.1, true) := by
  induction fs, ls using interleave.induct with
  | case1 ls => simp [interleave, toItem, List.filter_map, Function.comp_def]
  | case2 f fs =>
    simp [interleave, toItem, List.filter_eq_nil_iff]
  | case3 f fs l ls h ih =>
    rw [interleave, if_pos h]
    simpa [toItem] using ih
  | case4 f fs l ls h ih =>
    rw [interleave, if_neg h]
    simpa [toItem] using ih

theorem interleave_length (fs ls : ClList) :
    (interleave fs ls).length = fs.length + ls.length := by
  induction fs, ls using interleave.induct with
  | case1 ls => simp [interleave]
  | case2 f fs => simp [interleave]
  | case3 f fs l ls h ih =>
    rw [interleave, if_pos h]
    simp [ih]; omega
  | case4 f fs l ls h ih =>
    rw [interleave, if_neg h]
    simp [ih]; omega

/-- Every tagged item of the interleaving is an item of one of the two lists,
tagged with the list it comes from. -/
theorem interleave_mem (fs ls : ClList) :
    ∀ t ∈ interleave fs ls,
      (t.2.1 = false ∧ (t.1, t.2.2) ∈ fs) ∨ (t.2.1 = true ∧ (t.1, t.2.2) ∈ ls) := by
  induction fs, ls using interleave.induct with
  | case1 ls =>
    intro t ht
    simp only [interleave, List.mem_map] at ht
    obtain ⟨l, hl, rfl⟩ := ht
    exact Or.inr ⟨rfl, hl⟩
  | case2 f fs =>
    intro t ht
    simp only [interleave, List.mem_map] at ht
    obtain ⟨x, hx, rfl⟩ := ht
    exact Or.inl ⟨rfl, hx⟩
  | case3 f fs l ls h ih =>
    intro t ht
    rw [interleave, if_pos h] at ht
    rcases List.mem_cons.mp ht with rfl | ht
    · exact Or.inl ⟨rfl, List.mem_cons_self _ _⟩
    · rcases ih t ht with ⟨a, b⟩ | ⟨a, b⟩
      · exact Or.inl ⟨a, List.mem_cons_of_mem _ b⟩
      · exact Or.inr ⟨a, b⟩
  | case4 f fs l ls h ih =>
    intro t ht
    rw [interleave, if_neg h] at ht
    rcases List.mem_cons.mp ht with rfl | ht
    · exact Or.inr ⟨rfl, List.mem_cons_self _ _⟩
    · rcases ih t ht with ⟨a, b⟩ | ⟨a, b⟩
      · exact Or.inl ⟨a, b⟩
      · exact Or.inr ⟨a, List.mem_cons_of_mem _ b⟩

theorem interleave_perm (fs ls : ClList) :
    ((interleave fs ls).map toPos).Perm (fs.map Prod.snd ++ ls.map Prod.snd) := by
  induction fs, ls using interleave.induct with
  | case1 ls => simp [interleave, toPos, Function.comp_def]
  | case2 f fs => simp [interleave, toPos, Function.comp_def]
  | case3 f fs l ls h ih =>
    rw [interleave, if_pos h]
    simpa [toPos] using ih
  | case4 f fs l ls h ih =>
    rw [interleave, if_neg h]
    simp only [List.map_cons, toPos]
    refine (List.Perm.cons _ ih).trans ?_
    simpa using (@List.perm_middle _ l.2 (f.2 :: fs.map Prod.snd) (ls.map Prod.snd)).symm

/-- Interleaving two strictly ascending lists without a common position gives a
strictly ascending list of positions. -/
theorem interleave_sorted (fs ls : ClList) (hf : (fs.map Prod.snd).Pairwise (· < ·))
    (hl : (ls.map Prod.snd).Pairwise (· < ·)) (hd : ∀ x ∈ fs, ∀ y ∈ ls, x.2 ≠ y.2) :
    ((interleave fs ls).map toPos).Pairwise (· < ·) := by
  induction fs, ls using interleave.induct with
  | case1 ls => simpa [interleave, toPos, Function.comp_def] using hl
  | case2 f fs => simpa [interleave, toPos, Function.comp_def] using hf
  | case3 f fs l ls h ih =>
    rw [interleave, if_pos h]
    simp only [List.map_cons, List.pairwise_cons] at hf hl ⊢
    refine ⟨?_, ih hf.2 (List.pairwise_cons.mpr hl) (fun x hx y hy => hd x (List.mem_cons_of_mem _ hx) y hy)⟩
    intro p hp
    obtain ⟨t, ht, rfl⟩ := List.mem_map.mp hp
    rcases interleave_mem fs (l :: ls) t ht with ⟨_, b⟩ | ⟨_, b⟩
    · exact hf.1 _ (List.mem_map.mpr ⟨_, b, rfl⟩)
    · rcases List.mem_cons.mp b with e | b
      · have : toPos t = l.2 := by rw [← e]; rfl
        rw [this]; exact h
      · exact lt_trans h (hl.1 _ (List.mem_map.mpr ⟨_, b, rfl⟩))
  | case4 f fs l ls h ih =>
    have hgt : l.2 < f.2 :=
      lt_of_le_of_ne (not_lt.mp h)
        (Ne.symm (hd f (List.mem_cons_self _ _) l (List.mem_cons_self _ _)))
    rw [interleave, if_neg h]
    simp only [List.map_cons, List.pairwise_cons] at hf hl ⊢
    refine ⟨?_, ih (List.pairwise_cons.mpr hf) hl.2 (fun x hx y hy => hd x hx y (List.mem_cons_of_mem _ hy))⟩
    intro p hp
    obtain ⟨t, ht, rfl⟩ := List.mem_map.mp hp
    rcases interleave_mem (f :: fs) ls t ht with ⟨_, b⟩ | ⟨_, b⟩
    · rcases List.mem_cons.mp b with e | b
      · have : toPos t = f.2 := by rw [← e]; rfl
        rw [this]; exact hgt
      · exact lt_trans hgt (hf.1 _ (List.mem_map.mpr ⟨_, b, rfl⟩))
    · exact hl.1 _ (List.mem_map.mpr ⟨_, b, rfl⟩)

/-- The run of `BuildLinkItems` on lists without the sentinel `-1` and without a
common position, in closed form. -/
theorem mergeLoop_init (F L : ClList) (Items : ItemList) (hF : ∀ x ∈ F, x.2 ≠ -1)
    (hL : ∀ x ∈ L, x.2 ≠ -1) (hd : ∀ x ∈ F, ∀ y ∈ L, x.2 ≠ y.2) (fuel : Nat)
    (hfuel : F.length + L.length < fuel) :
    mergeLoop F L fuel (mergeInit Items) = some
      { fileIt := F.length, libIt := L.length,
        Items := Items ++ (interleave F L).map toItem,
        emitted := (interleave F L).map toPos } := by
  have h := mergeLoop_eq F L hF hL hd (F.length + L.length) (mergeInit Items)
    (Nat.zero_le _) (Nat.zero_le _) (by simp [mergeInit]) fuel hfuel
  simpa [mergeInit] using h

theorem nonneg_ne_sentinel {l : ClList} (h : ∀ x ∈ l, 0 ≤ x.2) : ∀ x ∈ l, x.2 ≠ -1 := by
  intro x hx hc
  have := h x hx
  omega

/-- A state that the loop body leaves unchanged while the loop condition holds is
never left: the loop does not end, whatever the fuel. -/
theorem mergeLoop_stuck (F L : ClList) (s : MergeState) (hc : loopCond F L s = true)
    (hb : loopBody F L s = s) : ∀ fuel, mergeLoop F L fuel s = none := by
  intro fuel
  induction fuel with
  | zero => rfl
  | succ k ih => rw [mergeLoop, if_pos hc, hb, ih]

/-- Without sentinel and without tie, one execution of the body moves exactly one
of the two cursors, by one. -/
theorem loopBody_advances (F L : ClList) (hF : ∀ x ∈ F, x.2 ≠ -1) (hL : ∀ x ∈ L, x.2 ≠ -1)
    (hd : ∀ x ∈ F, ∀ y ∈ L, x.2 ≠ y.2) (s : MergeState) (h1 : s.fileIt ≤ F.length)
    (h2 : s.libIt ≤ L.length) (hc : loopCond F L s = true) :
    ((loopBody F L s).fileIt = s.fileIt + 1 ∧ (loopBody F L s).libIt = s.libIt ∧
        (loopBody F L s).fileIt ≤ F.length) ∨
    ((loopBody F L s).fileIt = s.fileIt ∧ (loopBody F L s).libIt = s.libIt + 1 ∧
        (loopBody F L s).libIt ≤ L.length) := by
  simp only [loopCond, Bool.or_eq_true, decide_eq_true_eq] at hc
  rcases hfd : F.drop s.fileIt with _ | ⟨f, fs⟩
  · have e1 := drop_nil_facts h1 hfd
    rcases hld : L.drop s.libIt with _ | ⟨l, ls⟩
    · have e2 := drop_nil_facts h2 hld
      rcases hc with hc | hc
      · exact absurd e2 hc
      · exact absurd e1 hc
    · obtain ⟨hi, _, _, _⟩ := drop_cons_facts hld
      have hlmem : l ∈ L := List.mem_of_mem_drop (hld ▸ List.mem_cons_self l ls)
      rw [loopBody_lib hld (hL l hlmem) (Or.inl e1)]
      exact Or.inr ⟨rfl, rfl, hi⟩
  · obtain ⟨hif, hpf, _, _⟩ := drop_cons_facts hfd
    have hfmem : f ∈ F := List.mem_of_mem_drop (hfd ▸ List.mem_cons_self f fs)
    rcases hld : L.drop s.libIt with _ | ⟨l, ls⟩
    · have e2 := drop_nil_facts h2 hld
      rw [loopBody_file hfd (hF f hfmem) (Or.inl e2)]
      exact Or.inl ⟨rfl, rfl, hif⟩
    · obtain ⟨hil, hpl, _, _⟩ := drop_cons_facts hld
      have hlmem : l ∈ L := List.mem_of_mem_drop (hld ▸ List.mem_cons_self l ls)
      by_cases hlt : f.2 < l.2
      · rw [loopBody_file hfd (hF f hfmem) (Or.inr (by rw [hpl]; exact hlt))]
        exact Or.inl ⟨rfl, rfl, hif⟩
      · have hgt : l.2 < f.2 := lt_of_le_of_ne (not_lt.mp hlt) (Ne.symm (hd f hfmem l hlmem))
        rw [loopBody_lib hld (hL l hlmem) (Or.inr (by rw [hpf]; exact ⟨hF f hfmem, hgt⟩))]
        exact Or.inr ⟨rfl, rfl, hil⟩

/-! ### Claims about `BuildLinkItems` -/

/-- C1: for files and libraries with non-negative declaration positions and no
position common to both lists, `BuildLinkItems` (called, as in `main`, on an empty
item list) returns a list whose items tagged "file" are exactly the files in their
original order and whose items tagged "library" are exactly the libraries in their
original order; the output is a rearrangement of the tagged inputs (every input item
exactly once) and its length is the sum of the two input lengths. -/
theorem BuildLinkItems_order_preserving (Files Libraries : ClList)
    (hF : ∀ x ∈ Files, 0 ≤ x.2) (hL : ∀ x ∈ Libraries, 0 ≤ x.2)
    (hd : ∀ x ∈ Files, ∀ y ∈ Libraries, x.2 ≠ y.2) :
    ∃ out : ItemList,
      (∀ fuel, Files.length + Libraries.length < fuel →
        BuildLinkItems fuel [] Files Libraries = some out) ∧
      out.filter (fun it => !it.2) = Files.map (fun f => (f.1, false)) ∧
      out.filter (fun it => it.2) = Libraries.map (fun l => (l.1, true)) ∧
      out.Perm (Files.map (fun f => (f.1, false)) ++ Libraries.map (fun l => (l.1, true))) ∧
      out.length = Files.length + Libraries.length := by
  refine ⟨(interleave Files Libraries).map toItem, ?_, interleave_files _ _,
    interleave_libs _ _, ?_, by simp [interleave_length]⟩
  · intro fuel hfuel
    simp [BuildLinkItems, mergeLoop_init Files Libraries [] (nonneg_ne_sentinel hF)
      (nonneg_ne_sentinel hL) hd fuel hfuel]
  · have h := List.filter_append_perm (fun it : String × Bool => !it.2)
      ((interleave Files Libraries).map toItem)
    rw [interleave_files] at h
    have e : (List.filter (fun x : String × Bool => !(fun it : String × Bool => !it.2) x)
        ((interleave Files Libraries).map toItem))
        = Libraries.map (fun l => (l.1, true)) := by
      rw [← interleave_libs Files Libraries]
      congr 1
      funext x
      simp
    rw [e] at h
    exact h.symm

/-- Witness of C1: two files and two libraries given as `a.o -lm -lc b.o`. -/
theorem BuildLinkItems_order_preserving_witness :
    ∃ out : ItemList,
      (∀ fuel, 4 < fuel →
        BuildLinkItems fuel [] [("a.o", 1), ("b.o", 4)] [("m", 2), ("c", 3)] = some out) ∧
      out.filter (fun it => !it.2) = [("a.o", false), ("b.o", false)] ∧
      out.filter (fun it => it.2) = [("m", true), ("c", true)] ∧
      out.Perm ([("a.o", false), ("b.o", false)] ++ [("m", true), ("c", true)]) ∧
      out.length = 2 + 2 :=
  BuildLinkItems_order_preserving [("a.o", 1), ("b.o", 4)] [("m", 2), ("c", 3)]
    (by decide) (by decide) (by decide)

/-- C2: for files and libraries that are each in strictly ascending position
order, with non-negative positions and no position common to both lists, the
declaration positions of the items pushed by `BuildLinkItems`, in push order, are
strictly ascending.  The positions are those of the pushed items (item `k` of the
output is an input item declared at position `k` of the trace, with the tag of the
list it comes from) and they are all the input positions. -/
theorem BuildLinkItems_sorted_by_position (Files Libraries : ClList)
    (hF : ∀ x ∈ Files, 0 ≤ x.2) (hL : ∀ x ∈ Libraries, 0 ≤ x.2)
    (hd : ∀ x ∈ Files, ∀ y ∈ Libraries, x.2 ≠ y.2)
    (hsF : (Files.map Prod.snd).Pairwise (· < ·))
    (hsL : (Libraries.map Prod.snd).Pairwise (· < ·)) :
    ∃ (out : ItemList) (ps : List Int),
      (∀ fuel, Files.length + Libraries.length < fuel →
        BuildLinkItems fuel [] Files Libraries = some out ∧
        BuildLinkItemsPositions fuel Files Libraries = some ps) ∧
      ps.length = out.length ∧
      (∀ x ∈ out.zip ps, (x.1.2 = false ∧ (x.1.1, x.2) ∈ Files) ∨
        (x.1.2 = true ∧ (x.1.1, x.2) ∈ Libraries)) ∧
      ps.Perm (Files.map Prod.snd ++ Libraries.map Prod.snd) ∧
      ps.Pairwise (· < ·) := by
  refine ⟨(interleave Files Libraries).map toItem, (interleave Files Libraries).map toPos,
    ?_, by simp, ?_, interleave_perm _ _, interleave_sorted _ _ hsF hsL hd⟩
  · intro fuel hfuel
    simp [BuildLinkItems, BuildLinkItemsPositions,
      mergeLoop_init Files Libraries [] (nonneg_ne_sentinel hF) (nonneg_ne_sentinel hL) hd
        fuel hfuel]
  · intro x hx
    rw [List.zip_map', List.mem_map] at hx
    obtain ⟨t, ht, rfl⟩ := hx
    exact interleave_mem Files Libraries t ht

/-- Witness of C2: the example of the specification, files `[(a,0),(c,2)]` and
libraries `[(b,1),(d,3)]`, which merge to `[File a, Library b, File c, Library d]`
with positions `0, 1, 2, 3`. -/
theorem BuildLinkItems_sorted_by_position_witness :
    (∃ (out : ItemList) (ps : List Int),
      (∀ fuel, 2 + 2 < fuel →
        BuildLinkItems fuel [] [("a", 0), ("c", 2)] [("b", 1), ("d", 3)] = some out ∧
        BuildLinkItemsPositions fuel [("a", 0), ("c", 2)] [("b", 1), ("d", 3)] = some ps) ∧
      ps.length = out.length ∧
      (∀ x ∈ out.zip ps, (x.1.2 = false ∧ (x.1.1, x.2) ∈ [("a", (0 : Int)), ("c", 2)]) ∨
        (x.1.2 = true ∧ (x.1.1, x.2) ∈ [("b", (1 : Int)), ("d", 3)])) ∧
      ps.Perm ([0, 2] ++ [1, 3]) ∧
      ps.Pairwise (· < ·)) ∧
    BuildLinkItems 5 [] [("a", 0), ("c", 2)] [("b", 1), ("d", 3)]
      = some [("a", false), ("b", true), ("c", false), ("d", true)] ∧
    BuildLinkItemsPositions 5 [("a", 0), ("c", 2)] [("b", 1), ("d", 3)] = some [0, 1, 2, 3] :=
  ⟨BuildLinkItems_sorted_by_position [("a", 0), ("c", 2)] [("b", 1), ("d", 3)]
    (by decide) (by decide) (by decide) (by decide) (by decide), by decide, by decide⟩

/-- Counterexample to C3 as stated: with a file and a library declared at the same
position, the loop body changes nothing (no cursor advances) although the loop
condition holds, so the loop never ends: `BuildLinkItems` returns for no amount of
fuel.  The same happens for a single file whose position is the sentinel `-1`. -/
theorem BuildLinkItems_tie_does_not_terminate :
    loopCond [("a", 1)] [("b", 1)] (mergeInit []) = true ∧
    loopBody [("a", 1)] [("b", 1)] (mergeInit []) = mergeInit [] ∧
    (¬ ∃ fuel, (BuildLinkItems fuel [] [("a", 1)] [("b", 1)]).isSome = true) ∧
    (¬ ∃ fuel, (BuildLinkItems fuel [] [("a", -1)] []).isSome = true) := by
  refine ⟨by decide, by decide, ?_, ?_⟩
  · rintro ⟨fuel, h⟩
    rw [BuildLinkItems, mergeLoop_stuck _ _ _ (by decide) (by decide) fuel] at h
    exact absurd h (by decide)
  · rintro ⟨fuel, h⟩
    rw [BuildLinkItems, mergeLoop_stuck _ _ _ (by decide) (by decide) fuel] at h
    exact absurd h (by decide)

/-- C3 (amended): for files and libraries in which no position is `-1` (the value
the loop uses for an exhausted cursor) and no position occurs in both lists, and for
any initial contents of `Items`: every execution of the loop body from a state
whose cursors are within their lists and whose loop condition holds advances exactly
one of the two cursors by one (and keeps it within its list); the loop ends, with
both cursors exhausted, within `length Files + length Libraries + 1` evaluations of
its condition; and `BuildLinkItems` returns a list. -/
theorem BuildLinkItems_total_without_ties (Files Libraries : ClList) (Items : ItemList)
    (hF : ∀ x ∈ Files, x.2 ≠ -1) (hL : ∀ x ∈ Libraries, x.2 ≠ -1)
    (hd : ∀ x ∈ Files, ∀ y ∈ Libraries, x.2 ≠ y.2) :
    (∀ s : MergeState, s.fileIt ≤ Files.length → s.libIt ≤ Libraries.length →
      loopCond Files Libraries s = true →
      ((loopBody Files Libraries s).fileIt = s.fileIt + 1 ∧
        (loopBody Files Libraries s).libIt = s.libIt ∧
        (loopBody Files Libraries s).fileIt ≤ Files.length) ∨
      ((loopBody Files Libraries s).fileIt = s.fileIt ∧
        (loopBody Files Libraries s).libIt = s.libIt + 1 ∧
        (loopBody Files Libraries s).libIt ≤ Libraries.length)) ∧
    (∃ final : MergeState,
      (∀ fuel, Files.length + Libraries.length < fuel →
        mergeLoop Files Libraries fuel (mergeInit Items) = some final) ∧
      final.fileIt = Files.length ∧ final.libIt = Libraries.length ∧
      loopCond Files Libraries final = false) ∧
    (∃ out : ItemList, ∀ fuel, Files.length + Libraries.length < fuel →
      BuildLinkItems fuel Items Files Libraries = some out) := by
  refine ⟨fun s h1 h2 hc => loopBody_advances Files Libraries hF hL hd s h1 h2 hc,
    ⟨_, fun fuel hfuel => mergeLoop_init Files Libraries Items hF hL hd fuel hfuel,
      rfl, rfl, by simp [loopCond]⟩,
    ⟨Items ++ (interleave Files Libraries).map toItem, fun fuel hfuel => ?_⟩⟩
  simp [BuildLinkItems, mergeLoop_init Files Libraries Items hF hL hd fuel hfuel]

/-- Witness of C3 (amended): three files and one library, the library declared
between the files; the loop ends after four iterations. -/
theorem BuildLinkItems_total_without_ties_witness :
    BuildLinkItems 5 [] [("x.o", 1), ("y.o", 2), ("z.o", 4)] [("m", 3)]
      = some [("x.o", false), ("y.o", false), ("m", true), ("z.o", false)] ∧
    ∃ out : ItemList, ∀ fuel, 3 + 1 < fuel →
      BuildLinkItems fuel [] [("x.o", 1), ("y.o", 2), ("z.o", 4)] [("m", 3)] = some out :=
  ⟨by decide,
    (BuildLinkItems_total_without_ties [("x.o", 1), ("y.o", 2), ("z.o", 4)] [("m", 3)] []
      (by decide) (by decide) (by decide)).2.2⟩

end Gccld

namespace Program

theorem drop_length_takeWhile (p : Char → Bool) (r : List Char) :
    r.drop (r.takeWhile p).length = r.dropWhile p := by
  induction r with
  | nil => rfl
  | cons c cs ih =>
    by_cases h : p c
    · simp [List.takeWhile_cons, List.dropWhile_cons, h, ih]
    · simp [List.takeWhile_cons, List.dropWhile_cons, h]

theorem take_length_takeWhile (p : Char → Bool) (r : List Char) :
    r.take (r.takeWhile p).length = r.takeWhile p := by
  induction r with
  | nil => rfl
  | cons c cs ih =>
    by_cases h : p c
    · simp [List.takeWhile_cons, h, ih]
    · simp [List.takeWhile_cons, h]

theorem length_takeWhile_le (p : Char → Bool) (r : List Char) :
    (r.takeWhile p).length ≤ r.length := by
  induction r with
  | nil => simp
  | cons c cs ih =>
    by_cases h : p c
    · simp [List.takeWhile_cons, h, ih]
    · simp [List.takeWhile_cons, h]

theorem dropWhile_head_false (p : Char → Bool) :
    ∀ (r : List Char) {c : Char} {cs : List Char}, r.dropWhile p = c :: cs → p c = false := by
  intro r
  induction r with
  | nil => intro c cs h; exact List.noConfusion h
  | cons x xs ih =>
    intro c cs h
    by_cases hx : p x
    · rw [List.dropWhile_cons, if_pos hx] at h
      exact ih h
    · rw [List.dropWhile_cons, if_neg hx] at h
      injection h with h1 _
      rw [← h1]
      simpa using hx

theorem charAt_of_drop {buf : List Char} {i : Nat} {c : Char} {cs : List Char}
    (h : buf.drop i = c :: cs) : charAt buf i = c ∧ buf.drop (i + 1) = cs := by
  have hi : i < buf.length := by
    by_contra hc
    rw [List.drop_eq_nil_of_le (Nat.le_of_not_lt hc)] at h
    exact List.noConfusion h
  rw [List.drop_eq_getElem_cons hi] at h
  injection h with h3 h4
  exact ⟨by simp [charAt, List.getD_eq_getElem?_getD, List.getElem?_eq_getElem hi, h3], h4⟩

/-- The call of `std::find` over the rest of the string stops at the end of the first
segment. -/
theorem findFrom_eq (buf : List Char) :
    ∀ (count i : Nat), i + count = buf.length →
      findFrom buf ':' i count = i + (headSegment (buf.drop i)).length := by
  intro count
  induction count with
  | zero =>
    intro i h
    have : buf.drop i = [] := List.drop_eq_nil_of_le (by omega)
    simp [findFrom, headSegment, this]
  | succ k ih =>
    intro i h
    rcases hd : buf.drop i with _ | ⟨c, cs⟩
    · have := congrArg List.length hd
      simp at this
      omega
    · obtain ⟨h1, h2⟩ := charAt_of_drop hd
      rw [findFrom, h1]
      by_cases hc : c = ':'
      · simp [hc, headSegment, isColon]
      · rw [if_neg hc, ih (i + 1) (by omega), h2]
        simp [headSegment, List.takeWhile_cons, isColon, hc]
        omega

/-- The inner loop skips exactly the colons at the pointer, and the counter
follows, as long as it does not underflow. -/
theorem skipColonsFrom_eq :
    ∀ (r : List Char) (s : ScanState), (r.takeWhile isColon).length ≤ s.PathLen →
      s.PathLen < UINT_SIZE →
      skipColonsFrom r s =
        { PathStr := s.PathStr + (r.takeWhile isColon).length,
          PathLen := s.PathLen - (r.takeWhile isColon).length } := by
  intro r
  induction r with
  | nil => intro s _ _; simp [skipColonsFrom]
  | cons c cs ih =>
    intro s h1 h2
    by_cases hc : c = ':'
    · have hcol : isColon c = true := by simp [isColon, hc]
      simp only [List.takeWhile_cons, hcol, if_true, List.length_cons] at h1 ⊢
      have e : (s.PathLen + UINT_SIZE - 1) % UINT_SIZE = s.PathLen - 1 := by
        simp only [UINT_SIZE] at h2 ⊢
        omega
      rw [skipColonsFrom, if_pos hc, e, ih _ (by simp only; omega)
        (by simp only [UINT_SIZE] at h2 ⊢; omega)]
      simp only [ScanState.mk.injEq]
      omega
    · have hcol : isColon c = false := by simp [isColon, hc]
      simp [skipColonsFrom, hc, List.takeWhile_cons, hcol]

theorem segmentsOf_dropWhile_colon (r : List Char) :
    segmentsOf (r.dropWhile isColon) = segmentsOf r := by
  induction r with
  | nil => rfl
  | cons c cs ih =>
    by_cases hc : c = ':'
    · have hcol : isColon c = true := by simp [isColon, hc]
      rw [List.dropWhile_cons, if_pos hcol, ih]
      simp [segmentsOf, List.splitOn, hc]
    · have hcol : isColon c = false := by simp [isColon, hc]
      simp [List.dropWhile_cons, hcol]

/-- The segments of a suffix: its first segment, when not empty, then the segments
of what follows the colons after it. -/
theorem segmentsOf_step (r : List Char) :
    segmentsOf r =
      (if headSegment r = [] then [] else [headSegment r]) ++ segmentsOf (afterSegment r) := by
  have hsplit : r = headSegment r ++ r.dropWhile (fun c => !isColon c) :=
    (List.takeWhile_append_dropWhile _ r).symm
  have hseg : ∀ x ∈ headSegment r, ¬ ((fun c : Char => c == ':') x = true) := by
    intro x hx
    have := List.mem_takeWhile_imp hx
    simpa [isColon] using this
  rcases hrest : r.dropWhile (fun c => !isColon c) with _ | ⟨c, rest1⟩
  · rw [hrest, List.append_nil] at hsplit
    have h1 : r.splitOn ':' = [r] := by
      rw [List.splitOn]
      exact List.splitOnP_eq_single _ _ (by rw [hsplit]; exact hseg)
    rw [afterSegment, hrest]
    rw [← hsplit]
    by_cases hr : r = []
    · simp [segmentsOf, hr]
    · simp [segmentsOf, h1, hr]
  · have hc : c = ':' := by
      have := dropWhile_head_false _ r hrest
      simpa [isColon] using this
    subst hc
    have h1 : r.splitOn ':' = headSegment r :: rest1.splitOn ':' := by
      conv_lhs => rw [hsplit, hrest]
      rw [List.splitOn]
      exact List.splitOnP_first _ _ hseg ':' (by simp) rest1
    have h2 : afterSegment r = rest1.dropWhile isColon := by
      rw [afterSegment, hrest, List.dropWhile_cons, if_pos (by simp [isColon])]
    rw [h2, segmentsOf_dropWhile_colon]
    by_cases hs : headSegment r = []
    · simp [segmentsOf, h1, hs]
    · simp [segmentsOf, h1, hs]

/-- Where the scan stands after one iteration that finds nothing: past the first
segment and the colons after it, with the counter still equal to the number of
characters left. -/
theorem advance_eq (buf : List Char) (hlen : buf.length < UINT_SIZE) (i : Nat)
    (hi : i ≤ buf.length) :
    ∃ j, advance buf { PathStr := i, PathLen := buf.length - i }
          (i + (headSegment (buf.drop i)).length)
        = { PathStr := j, PathLen := buf.length - j } ∧
      buf.drop j = afterSegment (buf.drop i) ∧ j ≤ buf.length ∧ (i < buf.length → i < j) := by
  have hseg : (headSegment (buf.drop i)).length ≤ buf.length - i := by
    have := length_takeWhile_le (fun c => !isColon c) (buf.drop i)
    simpa [headSegment] using this
  have hdrop : buf.drop (i + (headSegment (buf.drop i)).length)
      = (buf.drop i).dropWhile (fun c => !isColon c) := by
    rw [← List.drop_drop]
    exact drop_length_takeWhile _ _
  have hk : (((buf.drop i).dropWhile (fun c => !isColon c)).takeWhile isColon).length
      ≤ buf.length - i - (headSegment (buf.drop i)).length := by
    have h1 := length_takeWhile_le isColon ((buf.drop i).dropWhile (fun c => !isColon c))
    have h2 := congrArg List.length hdrop
    simp only [List.length_drop] at h2
    omega
  refine ⟨i + (headSegment (buf.drop i)).length
    + (((buf.drop i).dropWhile (fun c => !isColon c)).takeWhile isColon).length, ?_, ?_, ?_, ?_⟩
  · have e : (buf.length - i + UINT_SIZE
        - (i + (headSegment (buf.drop i)).length - i) % UINT_SIZE) % UINT_SIZE
        = buf.length - i - (headSegment (buf.drop i)).length := by
      simp only [UINT_SIZE] at hlen ⊢
      omega
    simp only [advance, skipColons, e, hdrop]
    rw [skipColonsFrom_eq _ _ (by simpa using hk) (by simp only [UINT_SIZE] at hlen ⊢; omega)]
    simp only [ScanState.mk.injEq, true_and]
    omega
  · rw [← List.drop_drop, hdrop, afterSegment]
    exact drop_length_takeWhile _ _
  · omega
  · intro hlt
    rcases hd : buf.drop i with _ | ⟨c, cs⟩
    · have := congrArg List.length hd
      simp at this
      omega
    · by_cases hc : c = ':'
      · have hcol : isColon c = true := by simp [isColon, hc]
        simp [headSegment, List.takeWhile_cons, List.dropWhile_cons, hcol]
      · have hcol : isColon c = false := by simp [isColon, hc]
        simp [headSegment, List.takeWhile_cons, hcol]
        omega

theorem string_mk_eq_empty (cs : List Char) : String.mk cs = "" ↔ cs = [] := by
  constructor
  · intro h
    have := congrArg String.data h
    simpa using this
  · intro h
    rw [h]

/-- The scan of `FindProgramByName`, entered with the counter equal to the number
of characters left, ends and gives the answer of the reference resolver over the
segments of the rest of the string. -/
theorem scanLoop_eq (validName executable : String → Bool) (name : String) (buf : List Char)
    (hlen : buf.length < UINT_SIZE) :
    ∀ (fuel i : Nat), i ≤ buf.length → buf.length - i < fuel →
      scanLoop (specPathOps validName executable) name buf fuel
          { PathStr := i, PathLen := buf.length - i }
        = some (resolveIn executable name ((segmentsOf (buf.drop i)).map String.mk)) := by
  intro fuel
  induction fuel with
  | zero => intro i _ h; omega
  | succ k ih =>
    intro i hi hfuel
    by_cases h0 : buf.length - i = 0
    · have : buf.drop i = [] := List.drop_eq_nil_of_le (by omega)
      simp [scanLoop, h0, this, segmentsOf, resolveIn]
    · have hcolon : stdFind buf i (i + (buf.length - i)) ':'
          = i + (headSegment (buf.drop i)).length := by
        rw [stdFind, Nat.add_sub_cancel_left]
        exact findFrom_eq buf _ _ (by omega)
      have hstr : stringOfRange buf i (i + (headSegment (buf.drop i)).length)
          = String.mk (headSegment (buf.drop i)) := by
        rw [stringOfRange, Nat.add_sub_cancel_left, headSegment, take_length_takeWhile]
      obtain ⟨j, hadv, hdropj, hj, hprog⟩ := advance_eq buf hlen i hi
      have hrec := ih j hj (by have := hprog (by omega); omega)
      rw [hdropj] at hrec
      rw [scanLoop, if_pos h0]
      simp only [hcolon, hstr, hadv, hrec]
      rw [segmentsOf_step (buf.drop i)]
      by_cases hs : headSegment (buf.drop i) = []
      · simp [hs, tryDirectory, specPathOps]
      · have hne : ¬ String.mk (headSegment (buf.drop i)) = "" := by
          rw [string_mk_eq_empty]; exact hs
        by_cases hx : executable (String.mk (headSegment (buf.drop i)) ++ "/" ++ name) = true
        · simp [hs, tryDirectory, specPathOps, hne, hx, resolveIn]
        · simp [hs, tryDirectory, specPathOps, hne, hx, resolveIn]

/-! ### Claims about `FindProgramByName` -/

/-- C4: for every tool name, every value of `PATH` (unset, or a string whose length
fits the `unsigned` counter) and every executable-file and valid-name predicate,
`FindProgramByName` returns, within `length PATH + 1` iterations of its scan, what
the reference resolver returns: not-found for an empty or invalid name, the name
itself when it is executable as is, not-found when `PATH` is unset, and otherwise
`dir/name` for the first non-empty colon-separated segment `dir` of `PATH` for which
`dir/name` is executable, or not-found when there is none. -/
theorem FindProgramByName_eq_reference (validName executable : String → Bool)
    (PATH : Option String) (progName : String)
    (hlen : ∀ p, PATH = some p → p.length < UINT_SIZE)
    (fuel : Nat) (hfuel : ∀ p, PATH = some p → p.length < fuel) :
    FindProgramByName (specPathOps validName executable) PATH fuel progName
      = some (referenceResolver validName executable PATH progName) := by
  have hempty : progName.length = 0 ↔ progName = "" := by
    cases progName with
    | mk d => rw [string_mk_eq_empty]; simp [String.length]
  unfold FindProgramByName referenceResolver
  by_cases h0 : progName = ""
  · simp [h0]
  · have h0l : ¬ progName.length = 0 := fun h => h0 (hempty.mp h)
    by_cases hv : validName progName = true
    · by_cases hx : executable progName = true
      · simp [h0, h0l, hv, hx, specPathOps]
      · cases PATH with
        | none => simp [h0, h0l, hv, hx, specPathOps]
        | some path =>
          have h1 := scanLoop_eq validName executable progName path.toList
            (by simpa using hlen path rfl) fuel 0 (Nat.zero_le _)
            (by simpa using hfuel path rfl)
          simp only [List.drop_zero, Nat.sub_zero] at h1
          have h2 : path.length % UINT_SIZE = path.toList.length :=
            Nat.mod_eq_of_lt (hlen path rfl)
          simp only [h0l, h0, hv, hx, specPathOps, if_true, if_false, false_or, Bool.true_eq_false,
            Bool.false_eq_true, h2]
          exact h1
    · simp [h0, h0l, hv, specPathOps]

/-- Witness of C4: the example of the specification.  With `PATH` equal to
`":/bin::/usr/bin:"` and `/usr/bin/tool` the only executable, resolving `tool`
yields `/usr/bin/tool`: the empty segments contribute no directory. -/
theorem FindProgramByName_eq_reference_witness :
    FindProgramByName (specPathOps (fun _ => true) (fun p => p == "/usr/bin/tool"))
        (some ":/bin::/usr/bin:") 17 "tool"
      = some (referenceResolver (fun _ => true) (fun p => p == "/usr/bin/tool")
          (some ":/bin::/usr/bin:") "tool") ∧
    referenceResolver (fun _ => true) (fun p => p == "/usr/bin/tool")
        (some ":/bin::/usr/bin:") "tool" = "/usr/bin/tool" ∧
    pathDirectories ":/bin::/usr/bin:" = ["/bin", "/usr/bin"] :=
  ⟨FindProgramByName_eq_reference (fun _ => true) (fun p => p == "/usr/bin/tool")
      (some ":/bin::/usr/bin:") "tool"
      (fun p h => by cases h; decide) 17 (fun p h => by cases h; decide),
    by decide, by decide⟩

theorem getFd_setFd (t : FdTable) (i j : Nat) (d : Option Desc) :
    getFd (setFd t i d) j = if j = i then d else getFd t j := by
  unfold getFd setFd
  by_cases hi : i < t.length
  · rw [if_pos hi]
    by_cases hj : j = i
    · subst hj
      simp [List.getD_eq_getElem?_getD, List.getElem?_set, hi]
    · simp [List.getD_eq_getElem?_getD, List.getElem?_set, hj, Ne.symm hj]
  · rw [if_neg hi]
    by_cases hj : j = i
    · subst hj
      rw [if_pos rfl, List.getD_eq_getElem?_getD, List.getElem?_append_right (by simp; omega)]
      simp
      have : j - (t.length + (j - t.length)) = 0 := by omega
      simp [this]
    · rw [if_neg hj]
      simp only [List.getD_eq_getElem?_getD]
      by_cases hjl : j < t.length
      · rw [List.append_assoc, List.getElem?_append_left hjl]
      · rw [List.getElem?_eq_none (Nat.le_of_not_lt hjl)]
        by_cases hji : j < i
        · rw [List.getElem?_append_left (by simp; omega),
            List.getElem?_append_right (Nat.le_of_not_lt hjl)]
          simp only [List.getElem?_replicate]
          split <;> rfl
        · rw [List.getElem?_eq_none (by simp; omega)]

theorem lowestFree_ge_three (t : FdTable) (h : stdOpen t) : 3 ≤ lowestFree t := by
  obtain ⟨h0, h1, h2⟩ := h
  match t, h0, h1, h2 with
  | some _ :: some _ :: some _ :: rest, _, _, _ => simp [lowestFree]
  | [], h0, _, _ => simp [getFd] at h0
  | none :: _, h0, _, _ => simp [getFd] at h0
  | [some _], _, h1, _ => simp [getFd] at h1
  | some _ :: none :: _, _, h1, _ => simp [getFd] at h1
  | [some _, some _], _, _, h2 => simp [getFd] at h2
  | some _ :: some _ :: none :: _, _, _, h2 => simp [getFd] at h2

theorem targetOf_isEmpty (p : Path) : (targetOf p).isEmpty = false := by
  unfold targetOf
  by_cases h : p.isEmpty = true
  · rw [if_pos h]; decide
  · rw [if_neg h]; simpa using h

theorem ne_empty_of_isEmpty {p : String} (h : p.isEmpty = false) : p ≠ "" := by
  intro hc
  rw [hc] at h
  exact absurd h (by decide)

/-- The call of `RedirectFD` on a file that can be opened, in a child whose standard
descriptors are open: the descriptor `FD` ends bound to the file, the other
standard descriptors are untouched, and three system calls are made. -/
theorem RedirectFD_ok (canOpen : String → List OFlag → Bool) (File : String) (FD : Nat)
    (s : ChildState) (hstd : stdOpen s.fds) (hFD : FD < 3) (hne : File.isEmpty = false)
    (hopen : canOpen File (redirectFlags FD) = true) :
    ∃ s', RedirectFD canOpen File FD s = Except.ok s' ∧ stdOpen s'.fds ∧
      getFd s'.fds FD = some (Desc.file File (redirectFlags FD) mode0666) ∧
      (∀ j, j < 3 → j ≠ FD → getFd s'.fds j = getFd s.fds j) ∧
      s'.trace = s.trace ++
        [Syscall.sysOpen File (redirectFlags FD) mode0666 (lowestFree s.fds),
         Syscall.sysDup2 (lowestFree s.fds) FD, Syscall.sysClose (lowestFree s.fds)] := by
  have hn := lowestFree_ge_three s.fds hstd
  have hnFD : lowestFree s.fds ≠ FD := by omega
  have hFDn : FD ≠ lowestFree s.fds := by omega
  have hfds : ∀ j, getFd (doClose (lowestFree s.fds) (doDup2 (lowestFree s.fds) FD
      { fds := setFd s.fds (lowestFree s.fds) (some (Desc.file File (redirectFlags FD) mode0666)),
        trace := s.trace ++
          [Syscall.sysOpen File (redirectFlags FD) mode0666 (lowestFree s.fds)] })).fds j
      = if j = lowestFree s.fds then none
        else if j = FD then some (Desc.file File (redirectFlags FD) mode0666)
        else getFd s.fds j := by
    intro j
    by_cases h1 : j = lowestFree s.fds <;>
      simp [doClose, doDup2, getFd_setFd, hnFD, hFDn, h1]
  refine ⟨doClose (lowestFree s.fds) (doDup2 (lowestFree s.fds) FD
      { fds := setFd s.fds (lowestFree s.fds) (some (Desc.file File (redirectFlags FD) mode0666)),
        trace := s.trace ++
          [Syscall.sysOpen File (redirectFlags FD) mode0666 (lowestFree s.fds)] }),
    ?_, ?_, ?_, ?_, ?_⟩
  · simp only [RedirectFD, hne, doOpen, hopen, if_true, Bool.false_eq_true, if_false]
  · obtain ⟨h0, h1, h2⟩ := hstd
    refine ⟨?_, ?_, ?_⟩
    · rw [hfds, if_neg (by omega)]; split <;> simp [h0]
    · rw [hfds, if_neg (by omega)]; split <;> simp [h1]
    · rw [hfds, if_neg (by omega)]; split <;> simp [h2]
  · rw [hfds, if_neg hFDn, if_pos rfl]
  · intro j hj hjFD
    rw [hfds, if_neg (by omega), if_neg hjFD]
  · simp [doClose, doDup2]

/-- The call of `RedirectFD` on a file that cannot be opened: `ThrowErrno` after the failed
`open`. -/
theorem RedirectFD_fail (canOpen : String → List OFlag → Bool) (File : String) (FD : Nat)
    (s : ChildState) (hne : File.isEmpty = false)
    (hopen : canOpen File (redirectFlags FD) = false) :
    ∃ msg, RedirectFD canOpen File FD s = Except.error (msg,
      { fds := s.fds,
        trace := s.trace ++ [Syscall.sysOpen File (redirectFlags FD) mode0666 (-1)] }) := by
  refine ⟨"Cannot open file '" ++ File ++ "' for " ++ (if FD = 0 then "input" else "output")
    ++ "!\n", ?_⟩
  simp only [RedirectFD, hne, doOpen, hopen, Bool.false_eq_true, if_false]

/-- Whatever happens, `RedirectFD` only adds to the trace, and the one `open` it
may add is `open(File, FD == 0 ? O_RDONLY : O_WRONLY|O_CREAT, 0666)`, first. -/
theorem RedirectFD_trace (canOpen : String → List OFlag → Bool) (File : String) (FD : Nat)
    (s : ChildState) (hne : File.isEmpty = false) :
    ∃ ret rest, (finalState (RedirectFD canOpen File FD s)).trace
        = s.trace ++ Syscall.sysOpen File (redirectFlags FD) mode0666 ret :: rest ∧
      ∀ e ∈ rest, ∀ path flags mode r, e ≠ Syscall.sysOpen path flags mode r := by
  by_cases hopen : canOpen File (redirectFlags FD) = true
  · refine ⟨lowestFree s.fds,
      [Syscall.sysDup2 (lowestFree s.fds) FD, Syscall.sysClose (lowestFree s.fds)], ?_, ?_⟩
    · simp [RedirectFD, hne, doOpen, hopen, finalState, doClose, doDup2]
    · intro e he
      simp only [List.mem_cons, List.mem_singleton, List.not_mem_nil, or_false] at he
      rcases he with rfl | rfl <;> intro _ _ _ _ h <;> exact Syscall.noConfusion h
  · refine ⟨-1, [], ?_, ?_⟩
    · simp [RedirectFD, hne, doOpen, hopen, finalState]
    · intro e he
      exact absurd he (List.not_mem_nil _)

theorem redirect_target (canOpen : String → List OFlag → Bool) (p : Path) (FD : Nat)
    (s : ChildState) :
    (if p.isEmpty = true then RedirectFD canOpen "/dev/null" FD s else RedirectFD canOpen p FD s)
      = RedirectFD canOpen (targetOf p) FD s := by
  unfold targetOf
  by_cases h : p.isEmpty = true
  · simp [h]
  · simp [h]

/-- The redirection code as three stages: stdin, stdout, then either a separate
redirection of stderr or `dup2(1, 2)`. -/
theorem childRedirects_stages (canOpen : String → List OFlag → Bool) (r : Redirects)
    (s : ChildState) :
    childRedirects canOpen (some r) s =
      ((redirectStream canOpen r.stdin 0 s).bind fun s0 =>
        (redirectStream canOpen r.stdout 1 s0).bind fun s1 =>
          if separateStderr r then redirectStream canOpen r.stderr 2 s1
          else Except.ok (doDup2 1 2 s1)) := by
  obtain ⟨i, o, e⟩ := r
  cases i <;> cases o <;> cases e <;>
    simp only [childRedirects, redirectStream, separateStderr, targetOf, bind,
      Except.bind, ne_eq, decide_not, Bool.not_eq_true', decide_eq_false_iff_not,
      Bool.false_eq_true, if_false, ite_not] <;>
    split_ifs <;> rfl

theorem bind_eq_ok {ε α β : Type} {x : Except ε α} {f : α → Except ε β} {b : β}
    (h : x.bind f = Except.ok b) : ∃ a, x = Except.ok a ∧ f a = Except.ok b := by
  cases x with
  | error e => exact Except.noConfusion h
  | ok a => exact ⟨a, rfl, h⟩

/-- One stream redirection that does not throw, in a child whose standard
descriptors are open: the stream is bound to its target, the two other standard
descriptors are untouched, and the calls made are those of `streamCalls`. -/
theorem redirectStream_ok (canOpen : String → List OFlag → Bool) (o : Option Path) (FD : Nat)
    (s s' : ChildState) (hstd : stdOpen s.fds) (hFD : FD < 3)
    (h : redirectStream canOpen o FD s = Except.ok s') :
    stdOpen s'.fds ∧ getFd s'.fds FD = boundTo o FD (getFd s.fds FD) ∧
      (∀ j, j < 3 → j ≠ FD → getFd s'.fds j = getFd s.fds j) ∧
      ∃ n : Nat, s'.trace = s.trace ++ streamCalls o FD n := by
  cases o with
  | none =>
    simp only [redirectStream, Except.ok.injEq] at h
    subst h
    exact ⟨hstd, rfl, fun _ _ _ => rfl, 0, by simp [streamCalls]⟩
  | some p =>
    simp only [redirectStream] at h
    by_cases hopen : canOpen (targetOf p) (redirectFlags FD) = true
    · obtain ⟨s2, h1, h2, h3, h4, h5⟩ :=
        RedirectFD_ok canOpen (targetOf p) FD s hstd hFD (targetOf_isEmpty p) hopen
      rw [h1, Except.ok.injEq] at h
      subst h
      exact ⟨h2, h3, h4, lowestFree s.fds, h5⟩
    · obtain ⟨msg, h1⟩ := RedirectFD_fail canOpen (targetOf p) FD s (targetOf_isEmpty p)
        (by simpa using hopen)
      rw [h1] at h
      exact Except.noConfusion h

/-- One stream redirection succeeds when its target can be opened. -/
theorem redirectStream_succeeds (canOpen : String → List OFlag → Bool) (o : Option Path)
    (FD : Nat) (s : ChildState) (hstd : stdOpen s.fds) (hFD : FD < 3)
    (hopen : ∀ p, o = some p → canOpen (targetOf p) (redirectFlags FD) = true) :
    ∃ s', redirectStream canOpen o FD s = Except.ok s' := by
  cases o with
  | none => exact ⟨s, rfl⟩
  | some p =>
    obtain ⟨s2, h1, _⟩ :=
      RedirectFD_ok canOpen (targetOf p) FD s hstd hFD (targetOf_isEmpty p) (hopen p rfl)
    exact ⟨s2, h1⟩

/-- One stream redirection never opens the empty path. -/
theorem redirectStream_noEmptyOpen (canOpen : String → List OFlag → Bool) (o : Option Path)
    (FD : Nat) (s : ChildState) (h : noEmptyOpen s.trace) :
    noEmptyOpen (finalState (redirectStream canOpen o FD s)).trace := by
  cases o with
  | none => exact h
  | some p =>
    obtain ⟨ret, rest, h1, h2⟩ := RedirectFD_trace canOpen (targetOf p) FD s (targetOf_isEmpty p)
    simp only [redirectStream]
    rw [h1]
    intro e he path flags mode r heq
    rcases List.mem_append.mp he with he | he
    · exact h e he path flags mode r heq
    · rcases List.mem_cons.mp he with he | he
      · rw [he] at heq
        injection heq with hp _ _ _
        rw [← hp]
        exact ne_empty_of_isEmpty (targetOf_isEmpty p)
      · exact absurd heq (h2 e he path flags mode r)

theorem doDup2_one_two (s : ChildState) (hstd : stdOpen s.fds) :
    getFd (doDup2 1 2 s).fds 2 = getFd s.fds 1 ∧
      (∀ j, j ≠ 2 → getFd (doDup2 1 2 s).fds j = getFd s.fds j) ∧
      (doDup2 1 2 s).trace = s.trace ++ [Syscall.sysDup2 1 2] := by
  have h1 := hstd.2.1
  refine ⟨?_, ?_, rfl⟩
  · simp [doDup2, h1, getFd_setFd]
  · intro j hj
    simp [doDup2, h1, getFd_setFd, hj]

/-- The descriptor table and the calls of a run of the redirection code that does
not throw. -/
theorem childRedirects_ok (canOpen : String → List OFlag → Bool) (r : Redirects)
    (fds0 : FdTable) (s' : ChildState) (hstd : stdOpen fds0)
    (h : childRedirects canOpen (some r) { fds := fds0, trace := [] } = Except.ok s') :
    getFd s'.fds 0 = boundTo r.stdin 0 (getFd fds0 0) ∧
    getFd s'.fds 1 = boundTo r.stdout 1 (getFd fds0 1) ∧
    getFd s'.fds 2 =
      (if separateStderr r then boundTo r.stderr 2 (getFd fds0 2) else getFd s'.fds 1) ∧
    ∃ n0 n1 n2 : Nat, s'.trace = streamCalls r.stdin 0 n0 ++ streamCalls r.stdout 1 n1 ++
      (if separateStderr r then streamCalls r.stderr 2 n2 else [Syscall.sysDup2 1 2]) := by
  rw [childRedirects_stages] at h
  obtain ⟨s0, h0, h⟩ := bind_eq_ok h
  obtain ⟨s1, h1, h⟩ := bind_eq_ok h
  obtain ⟨a0, a1, a2, n0, a3⟩ := redirectStream_ok canOpen r.stdin 0 _ s0 hstd (by omega) h0
  obtain ⟨b0, b1, b2, n1, b3⟩ := redirectStream_ok canOpen r.stdout 1 s0 s1 a0 (by omega) h1
  simp only [List.nil_append] at a3
  by_cases hsep : separateStderr r = true
  · rw [if_pos hsep] at h
    obtain ⟨c0, c1, c2, n2, c3⟩ := redirectStream_ok canOpen r.stderr 2 s1 s' b0 (by omega) h
    refine ⟨?_, ?_, ?_, n0, n1, n2, ?_⟩
    · rw [c2 0 (by omega) (by omega), b2 0 (by omega) (by omega), a1]
    · rw [c2 1 (by omega) (by omega), b1, a2 1 (by omega) (by omega)]
    · rw [if_pos hsep, c1, b2 2 (by omega) (by omega), a2 2 (by omega) (by omega)]
    · rw [if_pos hsep, c3, b3, a3]
  · rw [if_neg hsep, Except.ok.injEq] at h
    subst h
    obtain ⟨d0, d1, d2⟩ := doDup2_one_two s1 b0
    refine ⟨?_, ?_, ?_, n0, n1, 0, ?_⟩
    · rw [d1 0 (by omega), b2 0 (by omega) (by omega), a1]
    · rw [d1 1 (by omega), b1, a2 1 (by omega) (by omega)]
    · rw [if_neg hsep, d0, d1 1 (by omega)]
    · rw [if_neg hsep, d2, b3, a3]

/-- The redirection code does not throw when every configured target can be
opened. -/
theorem childRedirects_succeeds (canOpen : String → List OFlag → Bool) (r : Redirects)
    (fds0 : FdTable) (hstd : stdOpen fds0)
    (h0 : ∀ p, r.stdin = some p → canOpen (targetOf p) (redirectFlags 0) = true)
    (h1 : ∀ p, r.stdout = some p → canOpen (targetOf p) (redirectFlags 1) = true)
    (h2 : ∀ p, r.stderr = some p → canOpen (targetOf p) (redirectFlags 2) = true) :
    ∃ s', childRedirects canOpen (some r) { fds := fds0, trace := [] } = Except.ok s' := by
  rw [childRedirects_stages]
  obtain ⟨s0, e0⟩ := redirectStream_succeeds canOpen r.stdin 0
    { fds := fds0, trace := [] } hstd (by omega) h0
  have a := redirectStream_ok canOpen r.stdin 0 { fds := fds0, trace := [] } s0 hstd
    (by omega) e0
  obtain ⟨s1, e1⟩ := redirectStream_succeeds canOpen r.stdout 1 s0 a.1 (by omega) h1
  have b := redirectStream_ok canOpen r.stdout 1 s0 s1 a.1 (by omega) e1
  rw [e0, Except.bind, e1, Except.bind]
  by_cases hsep : separateStderr r = true
  · rw [if_pos hsep]
    exact redirectStream_succeeds canOpen r.stderr 2 s1 b.1 (by omega) h2
  · rw [if_neg hsep]
    exact ⟨_, rfl⟩

/-- The redirection code never opens the empty path. -/
theorem childRedirects_noEmptyOpen (canOpen : String → List OFlag → Bool)
    (redirects : Option Redirects) (fds0 : FdTable) :
    noEmptyOpen (finalState (childRedirects canOpen redirects { fds := fds0, trace := [] })).trace := by
  have hnil : noEmptyOpen ([] : List Syscall) := fun e he => absurd he (List.not_mem_nil _)
  cases redirects with
  | none => exact hnil
  | some r =>
    rw [childRedirects_stages]
    have a := redirectStream_noEmptyOpen canOpen r.stdin 0 { fds := fds0, trace := [] } hnil
    cases e0 : redirectStream canOpen r.stdin 0 { fds := fds0, trace := [] } with
    | error err => rw [e0] at a; exact a
    | ok s0 =>
      rw [e0] at a
      have b := redirectStream_noEmptyOpen canOpen r.stdout 1 s0 a
      simp only [Except.bind]
      cases e1 : redirectStream canOpen r.stdout 1 s0 with
      | error err => rw [e1] at b; exact b
      | ok s1 =>
        rw [e1] at b
        simp only [Except.bind]
        by_cases hsep : separateStderr r = true
        · rw [if_pos hsep]
          exact redirectStream_noEmptyOpen canOpen r.stderr 2 s1 b
        · rw [if_neg hsep]
          intro e he path flags mode ret heq
          simp only [finalState, doDup2, List.mem_append, List.mem_singleton] at he
          rcases he with he | he
          · exact b e he path flags mode ret heq
          · rw [he] at heq
            exact Syscall.noConfusion heq

/-! ### Claims about `RedirectFD` and the redirections of the child -/

/-- C5: for every redirect configuration in which stdout is redirected to a target
`X` and the stderr redirect is unset or equal to `X`, and for a child that inherits
open standard descriptors: a run of the redirection code that reaches `execve`
makes, after the calls for stdin, exactly the calls `open(X)`, `dup2(fd, 1)`,
`close(fd)`, `dup2(1, 2)` (no `open` for descriptor 2), and leaves descriptor 2
a duplicate of descriptor 1, which is bound to the file of `X` (the discard device
when `X` is the empty path); the run reaches `execve` whenever the targets of stdin
and stdout can be opened. -/
theorem ExecuteAndWait_stderr_shares_stdout (canOpen : String → List OFlag → Bool)
    (r : Redirects) (X : Path) (fds0 : FdTable) (hstd : stdOpen fds0)
    (hout : r.stdout = some X) (herr : r.stderr = none ∨ r.stderr = some X) :
    (∀ s', childRedirects canOpen (some r) { fds := fds0, trace := [] } = Except.ok s' →
      (∃ n0 n1 : Nat, s'.trace = streamCalls r.stdin 0 n0 ++
        [Syscall.sysOpen (targetOf X) [OFlag.O_WRONLY, OFlag.O_CREAT] mode0666 n1,
         Syscall.sysDup2 n1 1, Syscall.sysClose n1, Syscall.sysDup2 1 2]) ∧
      getFd s'.fds 2 = getFd s'.fds 1 ∧
      getFd s'.fds 1
        = some (Desc.file (targetOf X) [OFlag.O_WRONLY, OFlag.O_CREAT] mode0666)) ∧
    ((∀ p, r.stdin = some p → canOpen (targetOf p) [OFlag.O_RDONLY] = true) →
      canOpen (targetOf X) [OFlag.O_WRONLY, OFlag.O_CREAT] = true →
      ∃ s', childRedirects canOpen (some r) { fds := fds0, trace := [] } = Except.ok s') := by
  have hsep : separateStderr r = false := by
    rcases herr with herr | herr <;> simp [separateStderr, hout, herr]
  constructor
  · intro s' h
    obtain ⟨_, h1, h2, n0, n1, _, h3⟩ := childRedirects_ok canOpen r fds0 s' hstd h
    rw [hsep] at h2 h3
    simp only [Bool.false_eq_true, if_false] at h2 h3
    refine ⟨⟨n0, n1, ?_⟩, h2, ?_⟩
    · rw [h3, hout]
      simp [streamCalls, redirectFlags]
    · rw [h1, hout]
      simp [boundTo, redirectFlags]
  · intro h0 h1
    refine childRedirects_succeeds canOpen r fds0 hstd h0 ?_ ?_
    · intro p hp
      rw [hout] at hp
      injection hp with hp
      rw [← hp]
      exact h1
    · intro p hp
      rcases herr with herr | herr
      · rw [herr] at hp
        exact Option.noConfusion hp
      · rw [herr] at hp
        injection hp with hp
        rw [← hp]
        exact h1

/-- Witness of C5: stdout redirected to `out.log`, no stderr redirect, every file
openable, the three standard descriptors inherited. -/
theorem ExecuteAndWait_stderr_shares_stdout_witness :
    childRedirects (fun _ _ => true)
        (some { stdin := none, stdout := some "out.log", stderr := none })
        { fds := stdFds, trace := [] }
      = Except.ok
          { fds := [some (Desc.inherited 0),
                    some (Desc.file "out.log" [OFlag.O_WRONLY, OFlag.O_CREAT] mode0666),
                    some (Desc.file "out.log" [OFlag.O_WRONLY, OFlag.O_CREAT] mode0666), none],
            trace := [Syscall.sysOpen "out.log" [OFlag.O_WRONLY, OFlag.O_CREAT] mode0666 3,
                      Syscall.sysDup2 3 1, Syscall.sysClose 3, Syscall.sysDup2 1 2] } ∧
    ∃ s', childRedirects (fun _ _ => true)
        (some { stdin := none, stdout := some "out.log", stderr := none })
        { fds := stdFds, trace := [] } = Except.ok s' :=
  ⟨by decide,
    (ExecuteAndWait_stderr_shares_stdout (fun _ _ => true)
      { stdin := none, stdout := some "out.log", stderr := none } "out.log" stdFds
      (by decide) rfl (Or.inl rfl)).2 (fun _ _ => rfl) rfl⟩

/-- C6, the code at the failing input: with a stderr redirect to `err.log` and no
stdout redirect, the child never opens `err.log`; its only call is `dup2(1, 2)`,
which leaves descriptor 2 a duplicate of the unredirected stdout. -/
theorem ExecuteAndWait_stderr_only_redirect_dropped :
    childRedirects (fun _ _ => true)
        (some { stdin := none, stdout := none, stderr := some "err.log" })
        { fds := stdFds, trace := [] }
      = Except.ok
          { fds := [some (Desc.inherited 0), some (Desc.inherited 1), some (Desc.inherited 1)],
            trace := [Syscall.sysDup2 1 2] } := by
  decide

/-- Counterexample to C7 as stated: redirecting stdout (or stderr) to `out.log`
calls `open` with the flags `O_WRONLY|O_CREAT`; `O_TRUNC` is not among them. -/
theorem RedirectFD_output_not_truncated :
    (finalState (RedirectFD (fun _ _ => true) "out.log" 1 { fds := stdFds, trace := [] })).trace
      = [Syscall.sysOpen "out.log" [OFlag.O_WRONLY, OFlag.O_CREAT] mode0666 3,
         Syscall.sysDup2 3 1, Syscall.sysClose 3] ∧
    (finalState (RedirectFD (fun _ _ => true) "out.log" 2 { fds := stdFds, trace := [] })).trace
      = [Syscall.sysOpen "out.log" [OFlag.O_WRONLY, OFlag.O_CREAT] mode0666 3,
         Syscall.sysDup2 3 2, Syscall.sysClose 3] ∧
    OFlag.O_TRUNC ∉ [OFlag.O_WRONLY, OFlag.O_CREAT] ∧
    ¬ (∃ flags ret, OFlag.O_TRUNC ∈ flags ∧
        Syscall.sysOpen "out.log" flags mode0666 ret ∈
          (finalState (RedirectFD (fun _ _ => true) "out.log" 1
            { fds := stdFds, trace := [] })).trace) := by
  refine ⟨by decide, by decide, by decide, ?_⟩
  rintro ⟨flags, ret, hf, hm⟩
  have e : (finalState (RedirectFD (fun _ _ => true) "out.log" 1
      { fds := stdFds, trace := [] })).trace
      = [Syscall.sysOpen "out.log" [OFlag.O_WRONLY, OFlag.O_CREAT] mode0666 3,
         Syscall.sysDup2 3 1, Syscall.sysClose 3] := by decide
  rw [e] at hm
  simp only [List.mem_cons, Syscall.sysOpen.injEq, List.mem_singleton, List.not_mem_nil,
    or_false, reduceCtorEq] at hm
  obtain ⟨_, h2, _, _⟩ := hm
  rw [h2] at hf
  exact absurd hf (by decide)

/-- C7 (amended): for every non-empty target path, whatever the state of the child
and whether or not the file can be opened, `RedirectFD` makes exactly one `open`
call, its first system call, on that path with permission bits `0666`: read-only
when the descriptor is stdin (0), and with the write-only and create flags, and no
truncate flag, when the descriptor is stdout (1) or stderr (2). -/
theorem RedirectFD_open_flags (canOpen : String → List OFlag → Bool) (File : String)
    (FD : Nat) (s : ChildState) (hne : File.isEmpty = false) :
    ∃ ret rest,
      (finalState (RedirectFD canOpen File FD s)).trace
        = s.trace ++ Syscall.sysOpen File
            (if FD = 0 then [OFlag.O_RDONLY] else [OFlag.O_WRONLY, OFlag.O_CREAT])
            mode0666 ret :: rest ∧
      (∀ e ∈ rest, ∀ path flags mode r, e ≠ Syscall.sysOpen path flags mode r) ∧
      OFlag.O_TRUNC ∉ (if FD = 0 then [OFlag.O_RDONLY] else [OFlag.O_WRONLY, OFlag.O_CREAT]) ∧
      mode0666 = 6 * 64 + 6 * 8 + 6 := by
  obtain ⟨ret, rest, h1, h2⟩ := RedirectFD_trace canOpen File FD s hne
  refine ⟨ret, rest, h1, h2, ?_, by decide⟩
  by_cases h : FD = 0
  · rw [if_pos h]; decide
  · rw [if_neg h]; decide

/-- Witness of C7 (amended): stdin redirected from `in.txt`, which is opened
read-only. -/
theorem RedirectFD_open_flags_witness :
    ∃ ret rest,
      (finalState (RedirectFD (fun _ _ => true) "in.txt" 0 { fds := stdFds, trace := [] })).trace
        = ([] : List Syscall) ++ Syscall.sysOpen "in.txt"
            (if 0 = 0 then [OFlag.O_RDONLY] else [OFlag.O_WRONLY, OFlag.O_CREAT])
            mode0666 ret :: rest ∧
      (∀ e ∈ rest, ∀ path flags mode r, e ≠ Syscall.sysOpen path flags mode r) ∧
      OFlag.O_TRUNC ∉ (if 0 = 0 then [OFlag.O_RDONLY] else [OFlag.O_WRONLY, OFlag.O_CREAT]) ∧
      mode0666 = 6 * 64 + 6 * 8 + 6 :=
  RedirectFD_open_flags (fun _ _ => true) "in.txt" 0 { fds := stdFds, trace := [] } (by decide)

/-- C8: for every redirect configuration, in a child that inherits open standard
descriptors: no `open` call of the redirection code is ever given the empty path;
a run that reaches `execve` leaves each stream whose configured target is the empty
path (stdin, stdout, or a stderr that is redirected separately) bound to
`/dev/null`, opened for that descriptor; and the run reaches `execve` as soon as
`/dev/null` and the non-empty targets can be opened, so that a redirect to the empty
path does not fail for lack of a file. -/
theorem ExecuteAndWait_empty_target_is_dev_null (canOpen : String → List OFlag → Bool)
    (r : Redirects) (fds0 : FdTable) (hstd : stdOpen fds0) :
    noEmptyOpen
      (finalState (childRedirects canOpen (some r) { fds := fds0, trace := [] })).trace ∧
    (∀ s', childRedirects canOpen (some r) { fds := fds0, trace := [] } = Except.ok s' →
      (r.stdin = some "" →
        getFd s'.fds 0 = some (Desc.file "/dev/null" [OFlag.O_RDONLY] mode0666) ∧
        ∃ n : Nat, Syscall.sysOpen "/dev/null" [OFlag.O_RDONLY] mode0666 n ∈ s'.trace) ∧
      (r.stdout = some "" →
        getFd s'.fds 1
          = some (Desc.file "/dev/null" [OFlag.O_WRONLY, OFlag.O_CREAT] mode0666) ∧
        ∃ n : Nat, Syscall.sysOpen "/dev/null" [OFlag.O_WRONLY, OFlag.O_CREAT] mode0666 n
          ∈ s'.trace) ∧
      (r.stderr = some "" → separateStderr r = true →
        getFd s'.fds 2
          = some (Desc.file "/dev/null" [OFlag.O_WRONLY, OFlag.O_CREAT] mode0666) ∧
        ∃ n : Nat, Syscall.sysOpen "/dev/null" [OFlag.O_WRONLY, OFlag.O_CREAT] mode0666 n
          ∈ s'.trace)) ∧
    ((∀ p, r.stdin = some p → canOpen (targetOf p) [OFlag.O_RDONLY] = true) →
      (∀ p, r.stdout = some p → canOpen (targetOf p) [OFlag.O_WRONLY, OFlag.O_CREAT] = true) →
      (∀ p, r.stderr = some p → canOpen (targetOf p) [OFlag.O_WRONLY, OFlag.O_CREAT] = true) →
      ∃ s', childRedirects canOpen (some r) { fds := fds0, trace := [] } = Except.ok s') ∧
    targetOf "" = "/dev/null" := by
  refine ⟨childRedirects_noEmptyOpen canOpen (some r) fds0, ?_,
    fun h0 h1 h2 => childRedirects_succeeds canOpen r fds0 hstd h0 h1 h2, by decide⟩
  intro s' h
  obtain ⟨h0, h1, h2, n0, n1, n2, h3⟩ := childRedirects_ok canOpen r fds0 s' hstd h
  have ht : targetOf "" = "/dev/null" := by decide
  refine ⟨fun hin => ?_, fun hout => ?_, fun herr hsep => ?_⟩
  · refine ⟨?_, n0, ?_⟩
    · rw [h0, hin]; simp [boundTo, ht, redirectFlags]
    · rw [h3, hin]; simp [streamCalls, ht, redirectFlags]
  · refine ⟨?_, n1, ?_⟩
    · rw [h1, hout]; simp [boundTo, ht, redirectFlags]
    · rw [h3, hout]; simp [streamCalls, ht, redirectFlags]
  · refine ⟨?_, n2, ?_⟩
    · rw [h2, hsep, herr]; simp [boundTo, ht, redirectFlags]
    · rw [h3, hsep, herr]; simp [streamCalls, ht, redirectFlags]

/-- Witness of C8: stdin redirected to the empty path on a system where
`/dev/null` is the only file that can be opened: the child opens `/dev/null`
read-only for descriptor 0 and reaches `execve`. -/
theorem ExecuteAndWait_empty_target_is_dev_null_witness :
    childRedirects (fun p _ => p == "/dev/null")
        (some { stdin := some "", stdout := none, stderr := none })
        { fds := stdFds, trace := [] }
      = Except.ok
          { fds := [some (Desc.file "/dev/null" [OFlag.O_RDONLY] mode0666),
                    some (Desc.inherited 1), some (Desc.inherited 1), none],
            trace := [Syscall.sysOpen "/dev/null" [OFlag.O_RDONLY] mode0666 3,
                      Syscall.sysDup2 3 0, Syscall.sysClose 3, Syscall.sysDup2 1 2] } ∧
    noEmptyOpen
      (finalState (childRedirects (fun p _ => p == "/dev/null")
        (some { stdin := some "", stdout := none, stderr := none })
        { fds := stdFds, trace := [] })).trace :=
  ⟨by decide,
    (ExecuteAndWait_empty_target_is_dev_null (fun p _ => p == "/dev/null")
      { stdin := some "", stdout := none, stderr := none } stdFds (by decide)).1⟩

/-! ### Claims about the wait loop of `ExecuteAndWait` -/

/-- C9, the code at the failing inputs.  (1) No timeout requested, the first
`wait` interrupted by a signal, the child exiting with code 0 afterwards: the
parent calls `ThrowErrno("Error waiting for child process")` after one `wait`; it
does not wait again.  (2) A timeout of 5 seconds requested, the first `wait`
interrupted by a signal other than the alarm (the flag `Timeout` is still false):
the parent kills the child and returns `-1`.  In general, the result of an
interrupted first `wait` does not depend on whether the alarm fired: without a
timeout it is always the reap error, with a timeout always the kill. -/
theorem ExecuteAndWait_interrupted_wait_not_retried :
    ExecuteAndWait "/usr/bin/llc" 0
        { executable := true, forkResult := 7, Timeout0 := false, errno0 := Errno.other 0,
          waits := waitsOf [WaitResult.interrupted false, WaitResult.reaped 7 (Status.exited 0)] }
      = (ExecResult.threwErrno "Error waiting for child process",
          { Timeout := false, errno := Errno.EINTR, waitCalls := 1,
            events := [ParentEvent.wait] }) ∧
    ExecuteAndWait "/usr/bin/llc" 5
        { executable := true, forkResult := 7, Timeout0 := false, errno0 := Errno.other 0,
          waits := waitsOf [WaitResult.interrupted false, WaitResult.reaped 7 (Status.signaled 9)] }
      = (ExecResult.returned (-1),
          { Timeout := false, errno := Errno.EINTR, waitCalls := 2,
            events := [ParentEvent.installHandler, ParentEvent.alarm 5, ParentEvent.wait,
              ParentEvent.kill 7, ParentEvent.alarm 0, ParentEvent.restoreHandler,
              ParentEvent.wait] }) ∧
    (∀ (pathName : String) (env : ExecEnv) (b : Bool), env.executable = true →
      env.forkResult ≠ -1 → env.waits 0 = WaitResult.interrupted b →
      (ExecuteAndWait pathName 0 env).1
        = ExecResult.threwErrno "Error waiting for child process" ∧
      ∀ secondsToWait, secondsToWait ≠ 0 →
        ParentEvent.kill env.forkResult ∈ (ExecuteAndWait pathName secondsToWait env).2.events) := by
  refine ⟨by decide, by decide, ?_⟩
  intro pathName env b hx hf hw
  constructor
  · simp [ExecuteAndWait, hx, hf, doWait, hw, Ne.symm hf]
  · intro secondsToWait hs
    simp only [ExecuteAndWait, hx, hf, doWait, hw, hs, Bool.not_true, Bool.false_eq_true,
      if_false, ne_eq, not_false_eq_true, if_true, List.nil_append, decide_True,
      Bool.true_and, true_and, Ne.symm hf]
    cases hw2 : env.waits 1 with
    | reaped pid st => by_cases hp : pid = env.forkResult <;> simp [hp]
    | interrupted c => simp only [hf]; split <;> simp
    | failed c => simp only [hf]; split <;> simp

/-! ### Claims about the counters of the `PATH` scan -/

theorem stdFind_bounds (buf : List Char) (i : Nat) (hi : i ≤ buf.length) :
    i ≤ stdFind buf i (i + (buf.length - i)) ':' ∧
      stdFind buf i (i + (buf.length - i)) ':' ≤ buf.length := by
  have h : stdFind buf i (i + (buf.length - i)) ':'
      = i + (headSegment (buf.drop i)).length := by
    rw [stdFind, Nat.add_sub_cancel_left]
    exact findFrom_eq buf _ _ (by omega)
  have hseg : (headSegment (buf.drop i)).length ≤ buf.length - i := by
    have := length_takeWhile_le (fun c => !isColon c) (buf.drop i)
    simpa [headSegment] using this
  rw [h]
  omega

/-- The loop-head states of the scan entered with the counter equal to the number
of characters left: each of them has the counter equal to the number of characters
left, the pointers strictly increase from one to the next, and the states in which
an iteration starts are no more than the characters left at the entry. -/
theorem scanStates_invariant (ops : PathOps) (progName : String) (buf : List Char)
    (hlen : buf.length < UINT_SIZE) :
    ∀ (fuel i : Nat), i ≤ buf.length →
      (∀ s ∈ scanStates ops progName buf fuel { PathStr := i, PathLen := buf.length - i },
        i ≤ s.PathStr ∧ s.PathStr ≤ buf.length ∧ s.PathLen = buf.length - s.PathStr) ∧
      (scanStates ops progName buf fuel { PathStr := i, PathLen := buf.length - i }).Pairwise
        (fun a b => a.PathStr < b.PathStr) ∧
      ((scanStates ops progName buf fuel { PathStr := i, PathLen := buf.length - i }).filter
        (fun s => decide (s.PathLen ≠ 0))).length ≤ buf.length - i := by
  intro fuel
  induction fuel with
  | zero => intro i _; simp [scanStates]
  | succ k ih =>
    intro i hi
    by_cases h0 : buf.length - i = 0
    · simp [scanStates, h0, hi]
    · have hcolon : stdFind buf i (i + (buf.length - i)) ':'
          = i + (headSegment (buf.drop i)).length := by
        rw [stdFind, Nat.add_sub_cancel_left]
        exact findFrom_eq buf _ _ (by omega)
      obtain ⟨j, hadv, _, hj, hprog⟩ := advance_eq buf hlen i hi
      have hij : i < j := hprog (by omega)
      obtain ⟨r1, r2, r3⟩ := ih j hj
      rw [scanStates, if_pos h0]
      simp only [hcolon, hadv]
      cases tryDirectory ops progName
          (stringOfRange buf i (i + (headSegment (buf.drop i)).length)) with
      | some found =>
        refine ⟨?_, by simp, ?_⟩
        · intro s hs
          rw [List.mem_singleton] at hs
          subst hs
          exact ⟨le_refl _, hi, rfl⟩
        · simp [h0]
          omega
      | none =>
        refine ⟨?_, ?_, ?_⟩
        · intro s hs
          rcases List.mem_cons.mp hs with hs | hs
          · subst hs
            exact ⟨le_refl _, hi, rfl⟩
          · obtain ⟨a, b, c⟩ := r1 s hs
            exact ⟨by omega, b, c⟩
        · rw [List.pairwise_cons]
          refine ⟨?_, r2⟩
          intro s hs
          have := (r1 s hs).1
          simp only
          omega
        · have hd : decide (buf.length - i ≠ 0) = true := decide_eq_true h0
          rw [List.filter_cons]
          simp only [hd, if_true, List.length_cons]
          omega

/-- The scan entered with the counter equal to the number of characters left ends
within one evaluation of the loop condition per character left, plus one, whatever
the `sys::Path` operations answer. -/
theorem scanLoop_terminates (ops : PathOps) (progName : String) (buf : List Char)
    (hlen : buf.length < UINT_SIZE) :
    ∀ (fuel i : Nat), i ≤ buf.length → buf.length - i < fuel →
      (scanLoop ops progName buf fuel { PathStr := i, PathLen := buf.length - i }).isSome
        = true := by
  intro fuel
  induction fuel with
  | zero => intro i _ h; omega
  | succ k ih =>
    intro i hi hfuel
    by_cases h0 : buf.length - i = 0
    · simp [scanLoop, h0]
    · have hcolon : stdFind buf i (i + (buf.length - i)) ':'
          = i + (headSegment (buf.drop i)).length := by
        rw [stdFind, Nat.add_sub_cancel_left]
        exact findFrom_eq buf _ _ (by omega)
      obtain ⟨j, hadv, _, hj, hprog⟩ := advance_eq buf hlen i hi
      have hrec := ih j hj (by have := hprog (by omega); omega)
      rw [scanLoop, if_pos h0]
      simp only [hcolon, hadv]
      cases tryDirectory ops progName
          (stringOfRange buf i (i + (headSegment (buf.drop i)).length)) with
      | some found => rfl
      | none => exact hrec

/-- Once the loop has ended the trace of its loop-head states is complete: more
fuel adds nothing to it. -/
theorem scanStates_stable (ops : PathOps) (progName : String) (buf : List Char) :
    ∀ (fuel : Nat) (s : ScanState), (scanLoop ops progName buf fuel s).isSome = true →
      ∀ k, scanStates ops progName buf (fuel + k) s = scanStates ops progName buf fuel s := by
  intro fuel
  induction fuel with
  | zero => intro s h; simp [scanLoop] at h
  | succ n ih =>
    intro s h k
    have e : n + 1 + k = (n + k) + 1 := by omega
    rw [e, scanStates, scanStates]
    rw [scanLoop] at h
    by_cases h0 : s.PathLen ≠ 0
    · rw [if_pos h0] at h ⊢
      rw [if_pos h0]
      cases ht : tryDirectory ops progName
          (stringOfRange buf s.PathStr (stdFind buf s.PathStr (s.PathStr + s.PathLen) ':')) with
      | some found => simp only [ht]
      | none =>
        simp only [ht] at h ⊢
        rw [ih _ h k]
    · rw [if_neg h0, if_neg h0]

/-- C13: for every `PATH` string whose length fits the `unsigned` counter, whatever
the program name and the answers of the `sys::Path` operations: at the start of
each iteration of the scan of `FindProgramByName` (and when the loop condition
fails) the cursor `PathStr` is inside the string and the counter `PathLen` equals
the number of characters from the cursor to the end of the string; `std::find`
returns a position between the cursor and the end of the string, so that
`PathLen -= Colon-PathStr` does not underflow; the cursor strictly increases from
one iteration to the next; the iterations are at most `length(PATH)`; and the loop
ends within `length(PATH) + 1` evaluations of its condition, after which the trace
of loop-head states no longer grows. -/
theorem FindProgramByName_scan_stays_inside (ops : PathOps) (progName PATH : String)
    (hlen : PATH.length < UINT_SIZE) :
    (∀ fuel, ∀ s ∈ scanStates ops progName PATH.toList fuel (scanInit PATH),
      s.PathStr ≤ PATH.length ∧ s.PathLen = PATH.length - s.PathStr ∧
      s.PathStr ≤ stdFind PATH.toList s.PathStr (s.PathStr + s.PathLen) ':' ∧
      stdFind PATH.toList s.PathStr (s.PathStr + s.PathLen) ':' ≤ PATH.length) ∧
    (∀ fuel, (scanStates ops progName PATH.toList fuel (scanInit PATH)).Pairwise
      (fun a b => a.PathStr < b.PathStr)) ∧
    (∀ fuel, ((scanStates ops progName PATH.toList fuel (scanInit PATH)).filter
      (fun s => decide (s.PathLen ≠ 0))).length ≤ PATH.length) ∧
    (∀ fuel, PATH.length < fuel →
      (scanLoop ops progName PATH.toList fuel (scanInit PATH)).isSome = true) ∧
    (∀ k, scanStates ops progName PATH.toList (PATH.length + 1 + k) (scanInit PATH)
      = scanStates ops progName PATH.toList (PATH.length + 1) (scanInit PATH)) := by
  have hn : PATH.toList.length = PATH.length := rfl
  have hinit : scanInit PATH
      = { PathStr := 0, PathLen := PATH.toList.length - 0 } := by
    simp only [scanInit, Nat.sub_zero, hn, Nat.mod_eq_of_lt hlen]
  have hlen2 : PATH.toList.length < UINT_SIZE := hlen
  rw [hinit]
  refine ⟨?_, ?_, ?_, ?_, ?_⟩
  · intro fuel s hs
    obtain ⟨_, b, c⟩ :=
      (scanStates_invariant ops progName PATH.toList hlen2 fuel 0 (Nat.zero_le _)).1 s hs
    have hb := stdFind_bounds PATH.toList s.PathStr b
    rw [← c] at hb
    exact ⟨b, c, hb.1, hb.2⟩
  · intro fuel
    exact (scanStates_invariant ops progName PATH.toList hlen2 fuel 0 (Nat.zero_le _)).2.1
  · intro fuel
    exact (scanStates_invariant ops progName PATH.toList hlen2 fuel 0 (Nat.zero_le _)).2.2
  · intro fuel hfuel
    exact scanLoop_terminates ops progName PATH.toList hlen2 fuel 0 (Nat.zero_le _) hfuel
  · intro k
    exact scanStates_stable ops progName PATH.toList (PATH.length + 1) _
      (scanLoop_terminates ops progName PATH.toList hlen2 (PATH.length + 1) 0 (Nat.zero_le _)
        (by rw [← hn]; omega)) k

/-- Witness of C13: the scan of `":/bin::/usr/bin:"` (16 characters) when no
directory holds the program: three iterations, entered at the offsets 0, 1 and 7
with 16, 15 and 9 characters left, then the loop condition fails at the
terminator. -/
theorem FindProgramByName_scan_stays_inside_witness :
    scanStates (specPathOps (fun _ => true) (fun _ => false)) "tool"
        ":/bin::/usr/bin:".toList 17 (scanInit ":/bin::/usr/bin:")
      = [{ PathStr := 0, PathLen := 16 }, { PathStr := 1, PathLen := 15 },
         { PathStr := 7, PathLen := 9 }, { PathStr := 16, PathLen := 0 }] ∧
    (scanLoop (specPathOps (fun _ => true) (fun _ => false)) "tool"
        ":/bin::/usr/bin:".toList 17 (scanInit ":/bin::/usr/bin:")).isSome = true :=
  ⟨by decide,
    (FindProgramByName_scan_stays_inside (specPathOps (fun _ => true) (fun _ => false))
      "tool" ":/bin::/usr/bin:" (by decide)).2.2.2.1 17 (by decide)⟩

end Program

namespace Gccld

/-! ### Claims about `main` -/

/-- C10, the code at the failing inputs: a `-native` run in which both tools are
found and `llc` exits with code 1.  `main` drops the value returned by
`GenerateAssembly`: it goes on to call `GenerateNative`, removes the assembly file,
makes the output executable and returns 0.  The same holds for every pair of exit
codes of `llc` and `gcc`; only a signaled tool (the `std::string` exception of
`ExecuteAndWait`) stops the stages, with exit code 2. -/
theorem main_ignores_nonzero_exit_of_llc :
    main { OutputFilename := "a.out", LinkAsLibrary := false, Native := true,
           NativeCBE := false, linkError := false, outGood := true, bytecodeError := false,
           llc := "/usr/bin/llc", gcc := "/usr/bin/gcc",
           llcStatus := Program.Status.exited 1, gccStatus := Program.Status.exited 0 }
      = ([MainEvent.LinkInItems, MainEvent.GenerateBytecode, MainEvent.GenerateAssembly,
          MainEvent.GenerateNative, MainEvent.destroyFile, MainEvent.makeExecutable], 0) ∧
    (∀ c1 c2 : Nat,
      main { OutputFilename := "a.out", LinkAsLibrary := false, Native := true,
             NativeCBE := false, linkError := false, outGood := true, bytecodeError := false,
             llc := "/usr/bin/llc", gcc := "/usr/bin/gcc",
             llcStatus := Program.Status.exited c1, gccStatus := Program.Status.exited c2 }
        = ([MainEvent.LinkInItems, MainEvent.GenerateBytecode, MainEvent.GenerateAssembly,
            MainEvent.GenerateNative, MainEvent.destroyFile, MainEvent.makeExecutable], 0)) ∧
    main { OutputFilename := "a.out", LinkAsLibrary := false, Native := true,
           NativeCBE := false, linkError := false, outGood := true, bytecodeError := false,
           llc := "/usr/bin/llc", gcc := "/usr/bin/gcc",
           llcStatus := Program.Status.signaled 11, gccStatus := Program.Status.exited 0 }
      = ([MainEvent.LinkInItems, MainEvent.GenerateBytecode, MainEvent.GenerateAssembly,
          MainEvent.print "Program '/usr/bin/llc' received terminating signal."], 2) := by
  refine ⟨by decide, fun c1 c2 => ?_, by decide⟩
  rfl

/-- C12: for every run that takes the `-native` or the `-native-cbe` branch (not
linking a library) in which `llc` or `gcc` is not found, `main` returns exit code 1
and calls none of `GenerateAssembly`, `GenerateCFile`, `GenerateNative`, nor the
finalisation after them; when linking and bytecode generation have succeeded, the
run consists of these two steps followed by the message `Failed to find llc`, or
`Failed to find gcc` when only `gcc` is missing. -/
theorem main_tool_not_found (env : MainEnv) (hlib : env.LinkAsLibrary = false)
    (hnative : env.Native = true ∨ env.NativeCBE = true)
    (hmissing : env.llc.isEmpty = true ∨ env.gcc.isEmpty = true) :
    (main env).2 = 1 ∧
    (∀ e ∈ (main env).1, isStageEvent e = false) ∧
    (env.linkError = false → env.outGood = true → env.bytecodeError = false →
      (main env).1 = [MainEvent.LinkInItems, MainEvent.GenerateBytecode,
        MainEvent.print
          (if env.llc.isEmpty then "Failed to find llc" else "Failed to find gcc")]) := by
  have hstep : ∀ firstStage, nativeStep env firstStage =
      ([MainEvent.print (if env.llc.isEmpty then "Failed to find llc" else "Failed to find gcc")],
        Control.returned 1) := by
    intro firstStage
    unfold nativeStep PrintAndReturn
    by_cases h1 : env.llc.isEmpty = true
    · simp [h1]
    · have h2 : env.gcc.isEmpty = true := by
        rcases hmissing with h | h
        · exact absurd h h1
        · exact h
      simp [h1, h2]
  have hexe : executableStep env =
      ([MainEvent.print (if env.llc.isEmpty then "Failed to find llc" else "Failed to find gcc")],
        Control.returned 1) := by
    unfold executableStep
    rcases hnative with h | h
    · simp [hlib, h, hstep, andThen]
    · by_cases hn : env.Native = true
      · simp [hlib, hn, hstep, andThen]
      · simp [hlib, hn, h, hstep, andThen]
  have hmain : ∀ l o b, env.linkError = l → env.outGood = o → env.bytecodeError = b →
      (main env).2 = 1 ∧ (∀ e ∈ (main env).1, isStageEvent e = false) ∧
      (l = false → o = true → b = false →
        (main env).1 = [MainEvent.LinkInItems, MainEvent.GenerateBytecode,
          MainEvent.print
            (if env.llc.isEmpty then "Failed to find llc" else "Failed to find gcc")]) := by
    intro l o b hl ho hb
    cases l <;> cases o <;> cases b <;>
      simp [main, tryBlock, linkStep, bytecodeStep, PrintAndReturn, andThen, hlib, hl, ho, hb,
        hexe, isStageEvent]
  obtain ⟨h1, h2, h3⟩ := hmain env.linkError env.outGood env.bytecodeError rfl rfl rfl
  exact ⟨h1, h2, h3⟩

/-- Witness of C12: a `-native` run in which `llc` is not found (and `gcc` is). -/
theorem main_tool_not_found_witness :
    main { OutputFilename := "a.out", LinkAsLibrary := false, Native := true,
           NativeCBE := false, linkError := false, outGood := true, bytecodeError := false,
           llc := "", gcc := "/usr/bin/gcc",
           llcStatus := Program.Status.exited 0, gccStatus := Program.Status.exited 0 }
      = ([MainEvent.LinkInItems, MainEvent.GenerateBytecode,
          MainEvent.print "Failed to find llc"], 1) ∧
    (main { OutputFilename := "a.out", LinkAsLibrary := false, Native := true,
            NativeCBE := false, linkError := false, outGood := true, bytecodeError := false,
            llc := "", gcc := "/usr/bin/gcc",
            llcStatus := Program.Status.exited 0, gccStatus := Program.Status.exited 0 }).2 = 1 :=
  ⟨by decide,
    (main_tool_not_found
      { OutputFilename := "a.out", LinkAsLibrary := false, Native := true,
        NativeCBE := false, linkError := false, outGood := true, bytecodeError := false,
        llc := "", gcc := "/usr/bin/gcc",
        llcStatus := Program.Status.exited 0, gccStatus := Program.Status.exited 0 }
      rfl (Or.inl rfl) (Or.inl (by decide))).1⟩

/-! ### Claims about `EmitShellScript` -/

theorem loadLines_eq_filterMap (o : LibraryOracle) (libs : List String) :
    loadLines o libs = libs.filterMap (preloadLine o) := by
  induction libs with
  | nil => rfl
  | cons l rest ih =>
    by_cases h : (!(o.FindLibrary l).isEmpty && o.isDynamicLibrary (o.FindLibrary l)) = true
    · simp only [loadLines, h, if_true, List.filterMap_cons, preloadLine, ih]
    · simp only [loadLines, h, if_false, List.filterMap_cons, preloadLine, ih, Bool.false_eq_true]

theorem erase_eq_filter_of_count_le_one (libs : List String) (x : String)
    (h : libs.count x ≤ 1) : libs.erase x = libs.filter (fun l => decide (l ≠ x)) := by
  induction libs with
  | nil => rfl
  | cons l rest ih =>
    by_cases hl : l = x
    · subst hl
      have hc : rest.count l = 0 := by
        rw [List.count_cons_self] at h
        omega
      have hnot : l ∉ rest := List.count_eq_zero.mp hc
      have hf : rest.filter (fun y => decide (y ≠ l)) = rest := by
        rw [List.filter_eq_self]
        intro y hy
        have : y ≠ l := fun e => hnot (e ▸ hy)
        simpa using this
      rw [List.erase_cons_head, List.filter_cons_of_neg (by simp), hf]
    · have hc : rest.count x ≤ 1 := by
        rw [List.count_cons_of_ne (Ne.symm hl)] at h
        exact h
      have hb : (l == x) = false := by simpa using hl
      rw [List.erase_cons, hb]
      simp [hl, ih hc]

/-- Counterexample to C11 as stated: with the declared libraries `c` and `m`, both
resolving to dynamic libraries, the script has a preload line for `m` only; the
line for the declared dynamic library `c` is missing. -/
theorem EmitShellScript_omits_libc :
    EmitShellScript
        { FindLibrary := fun l => "/usr/lib/lib" ++ l ++ ".so", isDynamicLibrary := fun _ => true }
        true "a.out" ["c", "m"]
      = ScriptResult.written
          ["#!/bin/sh\n", "lli=$\x7bLLVMINTERP-lli\x7d\n", "exec $lli \\\n",
           "    -load=/usr/lib/libm.so \\\n", "    $0.bc $\x7b1+\"$@\"\x7d\n"]
          ["m"] ∧
    preloadLine
        { FindLibrary := fun l => "/usr/lib/lib" ++ l ++ ".so", isDynamicLibrary := fun _ => true }
        "c" = some "    -load=/usr/lib/libc.so \\\n" ∧
    ¬ (∃ libsAfter, EmitShellScript
        { FindLibrary := fun l => "/usr/lib/lib" ++ l ++ ".so", isDynamicLibrary := fun _ => true }
        true "a.out" ["c", "m"]
      = ScriptResult.written
          (scriptHeader ++
            (["c", "m"].filterMap (preloadLine
              { FindLibrary := fun l => "/usr/lib/lib" ++ l ++ ".so",
                isDynamicLibrary := fun _ => true })) ++ [scriptFooter])
          libsAfter) := by
  refine ⟨by decide, by decide, ?_⟩
  rintro ⟨libsAfter, h⟩
  have e : EmitShellScript
      { FindLibrary := fun l => "/usr/lib/lib" ++ l ++ ".so", isDynamicLibrary := fun _ => true }
      true "a.out" ["c", "m"]
      = ScriptResult.written
          ["#!/bin/sh\n", "lli=$\x7bLLVMINTERP-lli\x7d\n", "exec $lli \\\n",
           "    -load=/usr/lib/libm.so \\\n", "    $0.bc $\x7b1+\"$@\"\x7d\n"]
          ["m"] := by decide
  rw [e] at h
  injection h with h1 _
  exact absurd h1 (by decide)

/-- C11 (amended): for every list of declared libraries in which `c` occurs at most
once, every library-resolution oracle and every output file that can be opened, the
script written by `EmitShellScript` starts with the interpreter directive line
`#!/bin/sh`, ends with the line invoking the interpreter on `$0.bc` with the
forwarded arguments, and between the three header lines and that last line has
exactly the preload lines, one per library and in declared order, of the declared
libraries other than the C library `c` that resolve to a dynamic library. -/
theorem EmitShellScript_preloads (o : LibraryOracle) (OutputFilename : String)
    (Libraries : List String) (hc : Libraries.count "c" ≤ 1) :
    ∃ lines,
      EmitShellScript o true OutputFilename Libraries
        = ScriptResult.written lines (Libraries.filter (fun l => decide (l ≠ "c"))) ∧
      lines = scriptHeader ++
        (Libraries.filter (fun l => decide (l ≠ "c"))).filterMap (preloadLine o)
        ++ [scriptFooter] ∧
      lines.head? = some "#!/bin/sh\n" ∧
      lines.getLast? = some scriptFooter := by
  refine ⟨_, ?_, rfl, ?_, ?_⟩
  · simp only [EmitShellScript, Bool.not_true, Bool.false_eq_true, if_false,
      loadLines_eq_filterMap, erase_eq_filter_of_count_le_one Libraries "c" hc]
  · simp [scriptHeader]
  · simp

/-- Witness of C11 (amended): the libraries `m`, `c` and `gmp`, of which `gmp`
resolves to a static archive. -/
theorem EmitShellScript_preloads_witness :
    EmitShellScript
        { FindLibrary := fun l => if l = "gmp" then "/usr/lib/libgmp.a" else "/usr/lib/lib" ++ l ++ ".so",
          isDynamicLibrary := fun p => p != "/usr/lib/libgmp.a" }
        true "a.out" ["m", "c", "gmp", "z"]
      = ScriptResult.written
          ["#!/bin/sh\n", "lli=$\x7bLLVMINTERP-lli\x7d\n", "exec $lli \\\n",
           "    -load=/usr/lib/libm.so \\\n", "    -load=/usr/lib/libz.so \\\n",
           "    $0.bc $\x7b1+\"$@\"\x7d\n"]
          ["m", "gmp", "z"] ∧
    ∃ lines,
      EmitShellScript
          { FindLibrary := fun l => if l = "gmp" then "/usr/lib/libgmp.a" else "/usr/lib/lib" ++ l ++ ".so",
            isDynamicLibrary := fun p => p != "/usr/lib/libgmp.a" }
          true "a.out" ["m", "c", "gmp", "z"]
        = ScriptResult.written lines
            (["m", "c", "gmp", "z"].filter (fun l => decide (l ≠ "c"))) ∧
      lines = scriptHeader ++
        (["m", "c", "gmp", "z"].filter (fun l => decide (l ≠ "c"))).filterMap
          (preloadLine
            { FindLibrary := fun l => if l = "gmp" then "/usr/lib/libgmp.a" else "/usr/lib/lib" ++ l ++ ".so",
              isDynamicLibrary := fun p => p != "/usr/lib/libgmp.a" })
        ++ [scriptFooter] ∧
      lines.head? = some "#!/bin/sh\n" ∧
      lines.getLast? = some scriptFooter :=
  ⟨by decide,
    EmitShellScript_preloads
      { FindLibrary := fun l => if l = "gmp" then "/usr/lib/libgmp.a" else "/usr/lib/lib" ++ l ++ ".so",
        isDynamicLibrary := fun p => p != "/usr/lib/libgmp.a" }
      "a.out" ["m", "c", "gmp", "z"] (by decide)⟩

end Gccld
